import Mathlib

/-
  Verification development for the ColumnObject container
  (src/Columns/ColumnObject.cpp): a columnar store for semi-structured
  object values with typed paths, capped dynamic paths and a per-row
  shared-data overflow area.

  The C++ code is shallowly embedded: the external collaborators
  (TypedColumn, DynamicColumn, ValueCodec, string columns) are modelled by
  lists of abstract values; the ValueCodec is abstracted as the identity
  (its contract is decode (encode v) = v, so shared-data byte values are
  represented by the decoded value itself); unordered_map is modelled as an
  association list whose order stands for one admissible iteration order.
-/

set_option maxHeartbeats 1000000

namespace DB

/-- A single scalar value inside an object row.  This models the scalar
payloads of DB::Field that ColumnObject stores through its sub-columns;
Null is distinguished because ColumnObject gives it absence semantics. -/
inductive Value where
  | null : Value
  | int : Int → Value
  | str : String → Value
deriving DecidableEq

/-- DB::Field restricted to what ColumnObject consumes: a scalar, or an
Object (std::map from path to value, i.e. entries with sorted unique keys;
sortedness is a property of the producer, the list here is arbitrary). -/
inductive Field where
  | scalar : Value → Field
  | object : List (String × Value) → Field

/-! ### Byte-lexicographic order on paths

Paths are compared by byte-lexicographic order (StringRef / std::string
comparison).  For valid UTF-8 this coincides with lexicographic order on
the codepoint sequence, which is what is modelled here. -/

/-- Lexicographic strict order on codepoint lists. -/
def lexLt : List Nat → List Nat → Bool
  | [], [] => false
  | [], _ :: _ => true
  | _ :: _, [] => false
  | a :: as, b :: bs => if a < b then true else if b < a then false else lexLt as bs

/-- The codepoint sequence of a string (equivalently ordered to its UTF-8 bytes). -/
def strBytes (s : String) : List Nat := s.data.map Char.toNat

/-- Byte-lexicographic strict order on paths. -/
def strLt (a b : String) : Prop := lexLt (strBytes a) (strBytes b) = true

/-- Byte-lexicographic non-strict order on paths. -/
def strLe (a b : String) : Prop := lexLt (strBytes b) (strBytes a) = false

instance : DecidableRel strLt := fun _ _ => instDecidableEqBool _ _

instance : DecidableRel strLe := fun _ _ => instDecidableEqBool _ _

/-! ### Sub-columns

A `SubColumn` models an external column collaborator (a TypedColumn or a
DynamicColumn): a list of stored values together with the column's default
value and the acceptance predicate of its fallible `tryInsert`. -/

/-- Model of one external sub-column (TypedColumn / DynamicColumn). -/
structure SubColumn where
  ok : Value → Bool
  dflt : Value
  data : List Value

/-- Row count of a sub-column. -/
def SubColumn.size (c : SubColumn) : Nat := c.data.length

/-- IColumn::insert on a sub-column (assumed to succeed). -/
def SubColumn.insertVal (c : SubColumn) (v : Value) : SubColumn :=
  { c with data := c.data ++ [v] }

/-- IColumn::tryInsert on a sub-column: the collaborator accepts or rejects
the value; on rejection the sub-column is unchanged. -/
def SubColumn.tryInsertVal (c : SubColumn) (v : Value) : Option SubColumn :=
  if c.ok v then some (c.insertVal v) else none

/-- IColumn::insertDefault. -/
def SubColumn.insertDefault (c : SubColumn) : SubColumn :=
  { c with data := c.data ++ [c.dflt] }

/-- IColumn::insertManyDefaults. -/
def SubColumn.insertManyDefaults (c : SubColumn) (n : Nat) : SubColumn :=
  { c with data := c.data ++ List.replicate n c.dflt }

/-- IColumn::popBack down to a previous size (restore protocol of tryInsert:
popBack(size - prev) whenever size differs from prev). -/
def SubColumn.popBackTo (c : SubColumn) (n : Nat) : SubColumn :=
  { c with data := c.data.take n }

/-- The value at row n ((*column)[n]; out of range never happens in the code). -/
def SubColumn.valAt (c : SubColumn) (n : Nat) : Value := c.data.getD n c.dflt

/-- IColumn::isNullAt for a dynamic sub-column (its default is Null). -/
def SubColumn.isNullAt (c : SubColumn) (n : Nat) : Bool := c.valAt n == Value.null

/-- IColumn::insertRangeFrom on a sub-column. -/
def SubColumn.insertRangeFromCol (c src : SubColumn) (start len : Nat) : SubColumn :=
  { c with data := c.data ++ (src.data.drop start).take len }

/-- ColumnDynamic::create(max_dynamic_types) followed by
insertManyDefaults(n): a fresh dynamic column holding n nulls.  Its
acceptance predicate is the collaborator parameter dynOk. -/
def freshDynamic (dynOk : Value → Bool) (n : Nat) : SubColumn :=
  { ok := dynOk, dflt := Value.null, data := List.replicate n Value.null }

/-! ### Shared data

`shared_data` is a ColumnArray over a tuple of two ColumnStrings: a
flattened list of paths, a flattened list of (codec-encoded) values and the
array row offsets. -/

/-- The shared-data store: flattened paths, flattened values, row offsets. -/
structure SharedData where
  paths : List String
  values : List Value
  offsets : List Nat
deriving DecidableEq

/-- The last offset (offsets.back(), 0 for an empty column). -/
def SharedData.lastOff (sd : SharedData) : Nat := sd.offsets.getLastD 0

/-- offsets[n - 1] with the ClickHouse convention offsets[-1] = 0. -/
def SharedData.rowStart (sd : SharedData) (n : Nat) : Nat :=
  if n = 0 then 0 else sd.offsets.getD (n - 1) 0

/-- offsets[n]. -/
def SharedData.rowEnd (sd : SharedData) (n : Nat) : Nat := sd.offsets.getD n 0

/-- The entries of shared-data row n. -/
def SharedData.row (sd : SharedData) (n : Nat) : List (String × Value) :=
  ((sd.paths.zip sd.values).drop (sd.rowStart n)).take (sd.rowEnd n - sd.rowStart n)

/-- Append one (path, encoded value) pair to the flattened inner columns. -/
def SharedData.appendEntry (sd : SharedData) (p : String) (v : Value) : SharedData :=
  { sd with paths := sd.paths ++ [p], values := sd.values ++ [v] }

/-- shared_data_offsets.push_back(shared_data_paths->size()): close the row. -/
def SharedData.pushOffset (sd : SharedData) : SharedData :=
  { sd with offsets := sd.offsets ++ [sd.paths.length] }

/-- ColumnArray::insertManyDefaults: append n empty rows. -/
def SharedData.insertManyDefaults (sd : SharedData) (n : Nat) : SharedData :=
  { sd with offsets := sd.offsets ++ List.replicate n sd.lastOff }

/-- Append a whole row: its entries followed by the closing offset. -/
def SharedData.pushRow (sd : SharedData) (r : List (String × Value)) : SharedData :=
  (r.foldl (fun s pv => s.appendEntry pv.1 pv.2) sd).pushOffset

/-- Append several rows in order. -/
def SharedData.pushRows (sd : SharedData) (rs : List (List (String × Value))) : SharedData :=
  rs.foldl SharedData.pushRow sd

/-! ### Statistics and the ColumnObject state -/

/-- Statistics::Source. -/
inductive StatSource where
  | READ : StatSource
  | MERGE : StatSource
deriving DecidableEq

/-- ColumnObject::Statistics: advisory non-null counts per dynamic path. -/
structure Statistics where
  source : StatSource
  data : List (String × Nat)
deriving DecidableEq

/-- A default-constructed Statistics value (source READ, empty data). -/
def Statistics.default : Statistics := { source := StatSource.READ, data := [] }

/-- The ColumnObject state: typed paths, dynamic paths (both association
lists standing for unordered_map in one admissible iteration order),
shared data, the two immutable caps and the advisory statistics. -/
structure ColumnObject where
  typed_paths : List (String × SubColumn)
  dynamic_paths : List (String × SubColumn)
  shared_data : SharedData
  max_dynamic_paths : Nat
  max_dynamic_types : Nat
  statistics : Statistics

/-- Modelled from the spec: ColumnObject::size() lives in the header, which
is not part of the tree; per invariant I1 (length coherence) it is the
common row count of all sub-columns, read off the shared-data column. -/
def ColumnObject.size (C : ColumnObject) : Nat := C.shared_data.offsets.length

/-- Update the column stored under key p in an association list. -/
def updAssoc (l : List (String × SubColumn)) (p : String) (f : SubColumn → SubColumn) :
    List (String × SubColumn) :=
  l.map fun pc => if pc.1 = p then (pc.1, f pc.2) else pc

/-- The predicate selecting the entries of an inserted row that land in the
shared-data row once the dynamic-path cap is reached: the path is neither a
typed nor a dynamic path and the value is not Null. -/
def capSpillPred (C : ColumnObject) (pv : String × Value) : Bool :=
  (!decide (pv.1 ∈ C.typed_paths.map Prod.fst))
    && (!decide (pv.1 ∈ C.dynamic_paths.map Prod.fst))
    && !(pv.2 == Value.null)

/-- The relation between a pre-insert sub-column entry and its post-loop
counterpart: the key and the default are unchanged, and an entry whose key
is not among the inserted row's keys is untouched. -/
def padRel (keys : List String) (pc0 pc : String × SubColumn) : Prop :=
  pc.1 = pc0.1 ∧ pc.2.dflt = pc0.2.dflt ∧ (pc0.1 ∉ keys → pc = pc0)

/-- A sub-column extends another: same key, acceptance predicate and
default, and the data only grew by a suffix (tryInsert is append-only
before its rollback). -/
def extCol (pc0 pc : String × SubColumn) : Prop :=
  pc.1 = pc0.1 ∧ pc.2.ok = pc0.2.ok ∧ pc.2.dflt = pc0.2.dflt ∧
    ∃ t, (pc.2 : SubColumn).data = (pc0.2 : SubColumn).data ++ t

/-- The states reachable inside the tryInsert loop from a pre-call state:
all pre-existing sub-columns only gained suffixes, freshly added dynamic
paths sit at the end holding the pre-call number of nulls plus a suffix,
the flattened shared columns only grew, and offsets, caps and statistics
are untouched. -/
def tryIntermediate (C0 cur : ColumnObject) : Prop :=
  List.Forall₂ extCol C0.typed_paths cur.typed_paths ∧
  (∃ pre extra, cur.dynamic_paths = pre ++ extra ∧
    List.Forall₂ extCol C0.dynamic_paths pre ∧
    ∀ pc ∈ extra, ∃ t, (pc.2 : SubColumn).data = List.replicate C0.size Value.null ++ t) ∧
  (∃ t, cur.shared_data.paths = C0.shared_data.paths ++ t) ∧
  (∃ t, cur.shared_data.values = C0.shared_data.values ++ t) ∧
  cur.shared_data.offsets = C0.shared_data.offsets ∧
  cur.max_dynamic_paths = C0.max_dynamic_paths ∧
  cur.max_dynamic_types = C0.max_dynamic_types ∧
  cur.statistics = C0.statistics

/-- Consistency of the flattened shared-data columns: the two inner string
columns have equal lengths, the last offset closes the flattened columns,
and every offset stays within them. -/
structure SDOk (sd : SharedData) : Prop where
  pv : sd.values.length = sd.paths.length
  last : sd.lastOff = sd.paths.length
  le : ∀ o ∈ sd.offsets, o ≤ sd.paths.length

/-- Well-formedness of a ColumnObject state: length coherence of all
sub-columns (invariant I1), consistency of the flattened shared-data
columns with the row offsets, unique map keys, and the Null default of
dynamic columns. -/
structure WF (C : ColumnObject) : Prop where
  typed_len : ∀ pc ∈ C.typed_paths, (pc.2 : SubColumn).data.length = C.size
  dyn_len : ∀ pc ∈ C.dynamic_paths, (pc.2 : SubColumn).data.length = C.size
  pv_len : C.shared_data.values.length = C.shared_data.paths.length
  last_off : C.shared_data.lastOff = C.shared_data.paths.length
  offs_le : ∀ o ∈ C.shared_data.offsets, o ≤ C.shared_data.paths.length
  typed_nodup : (C.typed_paths.map Prod.fst).Nodup
  dyn_nodup : (C.dynamic_paths.map Prod.fst).Nodup
  dyn_dflt : ∀ pc ∈ C.dynamic_paths, (pc.2 : SubColumn).dflt = Value.null

/-! ### Row-level operations (ColumnObject::insert / tryInsert) -/

/-- One iteration of the loop in ColumnObject::insert: dispatch the entry to
its typed path, its dynamic path, a freshly added dynamic path
(tryToAddNewDynamicPath succeeds iff the cap is not yet reached), or the
shared-data row; a Null value past the cap is dropped. -/
def insertEntry (dynOk : Value → Bool) (cur : ColumnObject) (pv : String × Value) :
    ColumnObject :=
  if (cur.typed_paths.lookup pv.1).isSome then
    { cur with typed_paths := updAssoc cur.typed_paths pv.1 (fun c => c.insertVal pv.2) }
  else if (cur.dynamic_paths.lookup pv.1).isSome then
    { cur with dynamic_paths := updAssoc cur.dynamic_paths pv.1 (fun c => c.insertVal pv.2) }
  else if cur.dynamic_paths.length = cur.max_dynamic_paths then
    if pv.2 = Value.null then cur
    else { cur with shared_data := cur.shared_data.appendEntry pv.1 pv.2 }
  else
    { cur with dynamic_paths :=
        cur.dynamic_paths ++ [(pv.1, (freshDynamic dynOk cur.size).insertVal pv.2)] }

/-- The epilogue shared by insert and tryInsert: close the shared-data row
(push the offset even if the row is empty) and append one default to every
typed and dynamic column still at the pre-call length. -/
def finishRow (cur : ColumnObject) (prev_size : Nat) : ColumnObject :=
  { cur with
    shared_data := cur.shared_data.pushOffset,
    typed_paths := cur.typed_paths.map
      (fun pc => if pc.2.size = prev_size then (pc.1, pc.2.insertDefault) else pc),
    dynamic_paths := cur.dynamic_paths.map
      (fun pc => if pc.2.size = prev_size then (pc.1, pc.2.insertDefault) else pc) }

/-- ColumnObject::insert(x) where x.get of Object yields the given entries
(insert on a non-Object Field throws in Field::get and never mutates). -/
def ColumnObject.insertObject (dynOk : Value → Bool) (C : ColumnObject)
    (entries : List (String × Value)) : ColumnObject :=
  finishRow (entries.foldl (insertEntry dynOk) C) C.size

/-- The loop of ColumnObject::tryInsert: as insertEntry, but every
sub-column write goes through the fallible tryInsert.  On a failure the
partially mutated state is surfaced (Except.error) so that the caller can
run the restore protocol.  A fresh dynamic path added by
tryToAddNewDynamicPath stays in the map even when the subsequent tryInsert
into it fails. -/
def tryInsertLoop (dynOk : Value → Bool) :
    ColumnObject → List (String × Value) → Except ColumnObject ColumnObject
  | cur, [] => Except.ok cur
  | cur, pv :: rest =>
    match cur.typed_paths.lookup pv.1 with
    | some c =>
      if c.ok pv.2 then
        tryInsertLoop dynOk
          { cur with typed_paths := updAssoc cur.typed_paths pv.1 (fun c => c.insertVal pv.2) }
          rest
      else Except.error cur
    | none =>
      match cur.dynamic_paths.lookup pv.1 with
      | some c =>
        if c.ok pv.2 then
          tryInsertLoop dynOk
            { cur with dynamic_paths := updAssoc cur.dynamic_paths pv.1 (fun c => c.insertVal pv.2) }
            rest
        else Except.error cur
      | none =>
        if cur.dynamic_paths.length = cur.max_dynamic_paths then
          if pv.2 = Value.null then tryInsertLoop dynOk cur rest
          else
            tryInsertLoop dynOk
              { cur with shared_data := cur.shared_data.appendEntry pv.1 pv.2 } rest
        else
          if dynOk pv.2 then
            tryInsertLoop dynOk
              { cur with dynamic_paths :=
                  cur.dynamic_paths ++ [(pv.1, (freshDynamic dynOk cur.size).insertVal pv.2)] }
              rest
          else
            Except.error
              { cur with dynamic_paths := cur.dynamic_paths ++ [(pv.1, freshDynamic dynOk cur.size)] }

/-- The restore protocol of tryInsert (restore_sizes): pop every typed and
dynamic column back to the pre-call row count and the two shared-data inner
columns back to their pre-call lengths; offsets were never touched. -/
def restoreSizes (cur : ColumnObject) (prev_size prev_paths prev_values : Nat) :
    ColumnObject :=
  { cur with
    typed_paths := cur.typed_paths.map (fun pc => (pc.1, pc.2.popBackTo prev_size)),
    dynamic_paths := cur.dynamic_paths.map (fun pc => (pc.1, pc.2.popBackTo prev_size)),
    shared_data := { cur.shared_data with
      paths := cur.shared_data.paths.take prev_paths,
      values := cur.shared_data.values.take prev_values } }

/-- ColumnObject::tryInsert: false without mutation when x is not an
Object; otherwise run the fallible loop and on failure restore the
pre-call sizes.  Returns the success flag and the resulting state. -/
def ColumnObject.tryInsert (dynOk : Value → Bool) (C : ColumnObject) (x : Field) :
    Bool × ColumnObject :=
  match x with
  | Field.scalar _ => (false, C)
  | Field.object entries =>
    match tryInsertLoop dynOk C entries with
    | Except.error cur =>
      (false, restoreSizes cur C.size C.shared_data.paths.length C.shared_data.values.length)
    | Except.ok cur => (true, finishRow cur C.size)

/-- The readable content of row n at path p, following operator[]: the row
object is built by assigning all typed values, then the non-null dynamic
values, then all decoded shared-data entries, later assignments
overwriting earlier ones. -/
def ColumnObject.readAt (C : ColumnObject) (n : Nat) (p : String) : Option Value :=
  match (C.shared_data.row n).reverse.lookup p with
  | some v => some v
  | none =>
    match C.dynamic_paths.lookup p with
    | some c =>
      if c.valAt n = Value.null then (C.typed_paths.lookup p).map (fun tc => tc.valAt n)
      else some (c.valAt n)
    | none => (C.typed_paths.lookup p).map (fun tc => tc.valAt n)

/-! ### Unsupported single-value accessors and getPermutation -/

/-- The error kinds ColumnObject throws. -/
inductive ObjError where
  | notImplemented : ObjError
  | logicalError : ObjError
deriving DecidableEq

/-- ColumnObject::getDataAt: unconditionally throws NOT_IMPLEMENTED. -/
def ColumnObject.getDataAt (_C : ColumnObject) (_n : Nat) : Except ObjError String :=
  Except.error ObjError.notImplemented

/-- ColumnObject::insertData: unconditionally throws NOT_IMPLEMENTED,
leaving the column unchanged (no state is touched before the throw). -/
def ColumnObject.insertData (_C : ColumnObject) (_s : String) : Except ObjError ColumnObject :=
  Except.error ObjError.notImplemented

/-- Sort direction argument of getPermutation (ignored by the code). -/
inductive SortDirection where
  | ascending : SortDirection
  | descending : SortDirection

/-- Sort stability argument of getPermutation (ignored by the code). -/
inductive SortStability where
  | stable : SortStability
  | unstable : SortStability

/-- ColumnObject::getPermutation: object values are not comparable, so the
result is resized to size() and filled with iota(0..size-1) regardless of
every argument. -/
def ColumnObject.getPermutation (C : ColumnObject) (_dir : SortDirection)
    (_stab : SortStability) (_limit : Nat) (_nan_direction_hint : Int) : List Nat :=
  List.range C.size

/-! ### Bulk operations (filter / permute / index / replicate)

Each applies the same transform to every sub-column and rebuilds the column
through the create overload that takes no statistics argument, whose
defaulted parameter is a default-constructed Statistics. -/

/-- Apply a filter mask to a list (the sub-column collaborators filter). -/
def applyMask (mask : List Bool) (l : List α) : List α :=
  (l.zip mask).filterMap (fun ab => if ab.2 then some ab.1 else none)

/-- Select rows by a list of indexes (sub-column permute/index). -/
def SubColumn.selectRows (c : SubColumn) (idxs : List Nat) : SubColumn :=
  { c with data := idxs.map (fun i => c.valAt i) }

/-- The rows of the shared-data store as explicit lists. -/
def SharedData.toRows (sd : SharedData) : List (List (String × Value)) :=
  (List.range sd.offsets.length).map sd.row

/-- Rebuild a shared-data store from explicit rows. -/
def SharedData.ofRows (rs : List (List (String × Value))) : SharedData :=
  SharedData.pushRows { paths := [], values := [], offsets := [] } rs

/-- ColumnObject::filter: filter every sub-column, then create the result
with the same caps; the statistics argument is left to its default. -/
def ColumnObject.filter (C : ColumnObject) (mask : List Bool) : ColumnObject :=
  { typed_paths := C.typed_paths.map (fun pc => (pc.1, { pc.2 with data := applyMask mask pc.2.data })),
    dynamic_paths := C.dynamic_paths.map (fun pc => (pc.1, { pc.2 with data := applyMask mask pc.2.data })),
    shared_data := SharedData.ofRows (applyMask mask C.shared_data.toRows),
    max_dynamic_paths := C.max_dynamic_paths,
    max_dynamic_types := C.max_dynamic_types,
    statistics := Statistics.default }

/-- ColumnObject::permute: apply the permutation (cut to limit when it is
non-zero) to every sub-column; statistics left to the create default. -/
def ColumnObject.permute (C : ColumnObject) (perm : List Nat) (limit : Nat) : ColumnObject :=
  { typed_paths := C.typed_paths.map (fun pc => (pc.1, pc.2.selectRows (if limit = 0 then perm else perm.take limit))),
    dynamic_paths := C.dynamic_paths.map (fun pc => (pc.1, pc.2.selectRows (if limit = 0 then perm else perm.take limit))),
    shared_data := SharedData.ofRows ((if limit = 0 then perm else perm.take limit).map (fun i => C.shared_data.row i)),
    max_dynamic_paths := C.max_dynamic_paths,
    max_dynamic_types := C.max_dynamic_types,
    statistics := Statistics.default }

/-- ColumnObject::index: gather the given row indexes from every
sub-column; statistics left to the create default. -/
def ColumnObject.index (C : ColumnObject) (indexes : List Nat) (limit : Nat) : ColumnObject :=
  { typed_paths := C.typed_paths.map (fun pc => (pc.1, pc.2.selectRows (if limit = 0 then indexes else indexes.take limit))),
    dynamic_paths := C.dynamic_paths.map (fun pc => (pc.1, pc.2.selectRows (if limit = 0 then indexes else indexes.take limit))),
    shared_data := SharedData.ofRows ((if limit = 0 then indexes else indexes.take limit).map (fun i => C.shared_data.row i)),
    max_dynamic_paths := C.max_dynamic_paths,
    max_dynamic_types := C.max_dynamic_types,
    statistics := Statistics.default }

/-- The gather list of IColumn::replicate offsets: row i is repeated
(offsets[i] - offsets[i-1]) times. -/
def replicateIndexList (offs : List Nat) : List Nat :=
  (List.range offs.length).flatMap
    (fun i => List.replicate (offs.getD i 0 - (if i = 0 then 0 else offs.getD (i - 1) 0)) i)

/-- ColumnObject::replicate: replicate every sub-column by the offsets;
statistics left to the create default. -/
def ColumnObject.replicate (C : ColumnObject) (offs : List Nat) : ColumnObject :=
  { typed_paths := C.typed_paths.map (fun pc => (pc.1, pc.2.selectRows (replicateIndexList offs))),
    dynamic_paths := C.dynamic_paths.map (fun pc => (pc.1, pc.2.selectRows (replicateIndexList offs))),
    shared_data := SharedData.ofRows ((replicateIndexList offs).map (fun i => C.shared_data.row i)),
    max_dynamic_paths := C.max_dynamic_paths,
    max_dynamic_types := C.max_dynamic_types,
    statistics := Statistics.default }

/-! ### insertRangeFrom and the shared-data merge -/

/-- serializePathAndValueIntoSharedData for one source dynamic column at
one row: Null values are not stored in shared data (absence semantics);
a non-null value is appended (path, encoded value). -/
def spillEntry (src : ColumnObject) (row : Nat) (p : String) : Option (String × Value) :=
  match src.dynamic_paths.lookup p with
  | none => none
  | some c => if c.isNullAt row then none else some (p, c.valAt row)

/-- Append an optional (path, value) pair produced by the spill. -/
def sharedAppendOpt (sd : SharedData) (e : Option (String × Value)) : SharedData :=
  match e with
  | none => sd
  | some pv => sd.appendEntry pv.1 pv.2

/-- The walk over one source shared-data row in
insertFromSharedDataAndFillRemainingDynamicPaths: source entries whose path
is a destination dynamic path are deserialized into that dynamic column;
before any other source entry every pending spill path strictly below it is
flushed; the remaining spill paths are flushed after the walk.  The spill
list argument is the still-unconsumed sorted suffix. -/
def rowLoop (src : ColumnObject) (row : Nat) :
    ColumnObject → List (String × Value) → List String → ColumnObject
  | cur, [], spill =>
    { cur with shared_data :=
        spill.foldl (fun sd s => sharedAppendOpt sd (spillEntry src row s)) cur.shared_data }
  | cur, pv :: rest, spill =>
    if (cur.dynamic_paths.lookup pv.1).isSome then
      rowLoop src row
        { cur with dynamic_paths := updAssoc cur.dynamic_paths pv.1 (fun c => c.insertVal pv.2) }
        rest spill
    else
      rowLoop src row
        { cur with shared_data := SharedData.appendEntry ((spill.takeWhile (fun s => decide (strLt s pv.1))).foldl (fun sd s => sharedAppendOpt sd (spillEntry src row s)) cur.shared_data) pv.1 pv.2 }
        rest (spill.dropWhile (fun s => decide (strLt s pv.1)))

/-- Pad with one default every dynamic column still at the pre-row count. -/
def padDynamicOne (l : List (String × SubColumn)) (cur : Nat) : List (String × SubColumn) :=
  l.map (fun pc => if pc.2.size = cur then (pc.1, pc.2.insertDefault) else pc)

/-- Pad with len defaults every dynamic column still at the pre-range count. -/
def padDynamicMany (l : List (String × SubColumn)) (cur len : Nat) : List (String × SubColumn) :=
  l.map (fun pc => if pc.2.size = cur then (pc.1, pc.2.insertManyDefaults len) else pc)

/-- The entries one merged shared-data row receives, as a pure function of
the source row, the (sorted) spill list, and membership in the destination
dynamic paths: source entries held by a destination dynamic path are
consumed by that column, pending spill paths strictly below the next
emitted source path are flushed before it (dropping nulls), and leftovers
are flushed at the end.  This is the walk of rowLoop restricted to what it
appends to shared data. -/
def mergedRow (src : ColumnObject) (dynMem : String → Bool) (row : Nat) :
    List (String × Value) → List String → List (String × Value)
  | [], spill => spill.filterMap (spillEntry src row)
  | pv :: rest, spill =>
    if dynMem pv.1 then mergedRow src dynMem row rest spill
    else
      (spill.takeWhile (fun s => decide (strLt s pv.1))).filterMap (spillEntry src row)
        ++ pv :: mergedRow src dynMem row rest
            (spill.dropWhile (fun s => decide (strLt s pv.1)))

/-- One iteration of the per-row loop in the general branch of
insertFromSharedDataAndFillRemainingDynamicPaths: walk the source row,
close the shared-data row, then pad every dynamic column still at the
pre-row count. -/
def processRow (C src : ColumnObject) (spill : List String) (row : Nat) : ColumnObject :=
  let cur := C.shared_data.offsets.length
  let C1 := rowLoop src row C (src.shared_data.row row) spill
  { C1 with
    shared_data := C1.shared_data.pushOffset,
    dynamic_paths := padDynamicOne C1.dynamic_paths cur }

/-- ColumnObject::insertFromSharedDataAndFillRemainingDynamicPaths: sort
the deferred spill paths; if the source has no shared entries in the range,
either append empty rows or one spill-only row per source row; otherwise
run the per-row sorted merge.  Dynamic padding mirrors the code. -/
def insertFromSharedDataAndFillRemainingDynamicPaths
    (C src : ColumnObject) (spill0 : List String) (start len : Nat) : ColumnObject :=
  let spill := List.insertionSort strLe spill0
  if src.shared_data.rowStart start = src.shared_data.rowStart (start + len) then
    let cur := C.size
    let C1 :=
      if spill.isEmpty then
        { C with shared_data := C.shared_data.insertManyDefaults len }
      else
        (List.range len).foldl
          (fun acc k =>
            { acc with shared_data :=
                (spill.foldl (fun sd s => sharedAppendOpt sd (spillEntry src (start + k) s)) acc.shared_data).pushOffset })
          C
    { C1 with dynamic_paths := padDynamicMany C1.dynamic_paths cur len }
  else
    (List.range len).foldl (fun acc k => processRow acc src spill (start + k)) C

/-- The per-typed-path step of ColumnObject::insertRangeFrom: insertRangeFrom
on the matching typed sub-column. -/
def irfTypedStep (start len : Nat) (acc : ColumnObject) (pc : String × SubColumn) : ColumnObject :=
  { acc with typed_paths := updAssoc acc.typed_paths pc.1 (fun c => c.insertRangeFromCol pc.2 start len) }

/-- The per-dynamic-path step of ColumnObject::insertRangeFrom: copy into an
existing dynamic column, defer the path when the cap is reached, or create a
new dynamic column padded with defaults to the current size. -/
def irfDynStep (start len : Nat) (acc : ColumnObject × List String) (pc : String × SubColumn) : ColumnObject × List String :=
  if (acc.1.dynamic_paths.lookup pc.1).isSome then
    ({ acc.1 with dynamic_paths := updAssoc acc.1.dynamic_paths pc.1 (fun c => c.insertRangeFromCol pc.2 start len) }, acc.2)
  else if acc.1.dynamic_paths.length = acc.1.max_dynamic_paths then
    (acc.1, acc.2 ++ [pc.1])
  else
    ({ acc.1 with dynamic_paths := acc.1.dynamic_paths ++ [(pc.1, (freshDynamic (fun _ => true) acc.1.size).insertRangeFromCol pc.2 start len)] }, acc.2)

/-- ColumnObject::insertRangeFrom: copy the typed paths (same set on both
sides by caller contract), copy or create dynamic paths collecting the
over-cap source dynamic paths as the deferred spill list, then merge the
source shared data with the spill list.  Fresh dynamic columns never see a
fallible insert here, so their acceptance predicate is irrelevant. -/
def ColumnObject.insertRangeFrom (C src : ColumnObject) (start len : Nat) : ColumnObject :=
  let C1 := src.typed_paths.foldl (irfTypedStep start len) C
  let C2spill := src.dynamic_paths.foldl (irfDynStep start len) (C1, [])
  insertFromSharedDataAndFillRemainingDynamicPaths C2spill.1 src C2spill.2 start len

/-! ### Arena codec -/

/-- ColumnObject::serializeValueIntoArena at row n, abstracted to the
sequence of (path, value) entries it writes: all typed paths, then all
dynamic paths (their value serialized even when Null), then the shared-data
row in stored order; num_paths is the length of this list. -/
def ColumnObject.serializeRow (C : ColumnObject) (n : Nat) : List (String × Value) :=
  C.typed_paths.map (fun pc => (pc.1, pc.2.valAt n))
    ++ C.dynamic_paths.map (fun pc => (pc.1, pc.2.valAt n))
    ++ C.shared_data.row n

/-- One entry of the loop in ColumnObject::deserializeAndInsertFromArena:
a path of the destination typed set uses the typed deserializer; otherwise
the value is decoded into an existing dynamic path, a newly added dynamic
path when under the cap, or deferred (verbatim, with no Null filtering)
for shared data. -/
def deserStep (dynOk : Value → Bool) (st : ColumnObject × List (String × Value))
    (pv : String × Value) : ColumnObject × List (String × Value) :=
  if (st.1.typed_paths.lookup pv.1).isSome then
    ({ st.1 with typed_paths := updAssoc st.1.typed_paths pv.1 (fun c => c.insertVal pv.2) }, st.2)
  else if (st.1.dynamic_paths.lookup pv.1).isSome then
    ({ st.1 with dynamic_paths := updAssoc st.1.dynamic_paths pv.1 (fun c => c.insertVal pv.2) }, st.2)
  else if st.1.dynamic_paths.length = st.1.max_dynamic_paths then
    (st.1, st.2 ++ [pv])
  else
    ({ st.1 with dynamic_paths :=
        st.1.dynamic_paths ++ [(pv.1, (freshDynamic dynOk st.1.size).insertVal pv.2)] }, st.2)

/-- The deferred entries a run of deserializeAndInsertFromArena sends to
shared data. -/
def deferredOf (dynOk : Value → Bool) (D : ColumnObject)
    (entries : List (String × Value)) : List (String × Value) :=
  (entries.foldl (deserStep dynOk) (D, [])).2

/-- ColumnObject::deserializeAndInsertFromArena: dispatch every serialized
entry, then sort the deferred entries (std::sort on the path/value pairs;
with distinct paths this is a sort by path) and append them as the new
shared-data row. -/
def ColumnObject.deserializeAndInsertFromArena (dynOk : Value → Bool) (D : ColumnObject)
    (entries : List (String × Value)) : ColumnObject :=
  let st := entries.foldl (deserStep dynOk) (D, [])
  { st.1 with shared_data :=
      st.1.shared_data.pushRow (List.insertionSort (fun a b => strLe a.1 b.1) st.2) }

/-! ### takeDynamicStructureFromSourceColumns -/

/-- Add a source path tally into the accumulated map (emplace-then-add). -/
def addTally (acc : List (String × Nat)) (p : String) (s : Nat) : List (String × Nat) :=
  if (acc.lookup p).isSome then acc.map (fun q => if q.1 = p then (q.1, q.2 + s) else q)
  else acc ++ [(p, s)]

/-- Tally the dynamic paths of one source column: the per-path non-null
count comes from the source statistics when present, otherwise it is
size minus the number of default rows. -/
def tallyOne (acc : List (String × Nat)) (src : ColumnObject) : List (String × Nat) :=
  src.dynamic_paths.foldl
    (fun a pc =>
      addTally a pc.1
        (match src.statistics.data.lookup pc.1 with
         | some st => st
         | none => pc.2.size - pc.2.data.countP (fun v => v == pc.2.dflt)))
    acc

/-- Strict descending order on (count, path) pairs: std::greater on
std::pair compares the count first and the path second. -/
def pairGt (a b : Nat × String) : Prop :=
  b.1 < a.1 ∨ (b.1 = a.1 ∧ strLt b.2 a.2)

/-- Reflexive closure of pairGt, the sort relation for the descending sort. -/
def pairGe (a b : Nat × String) : Prop := pairGt a b ∨ a = b

instance : DecidableRel pairGt := fun a b => by
  unfold pairGt
  infer_instance

instance : DecidableRel pairGe := fun a b => by
  unfold pairGe
  infer_instance

/-- A fresh ColumnDynamic::create(max_dynamic_types) for a selected path
(its fallible-insert predicate is never consulted here). -/
def newDynamicColumn : SubColumn :=
  { ok := fun _ => true, dflt := Value.null, data := [] }

/-- ColumnObject::takeDynamicStructureFromSourceColumns.  Throws
LOGICAL_ERROR (none) when the column is not empty.  Otherwise tally all
source dynamic paths; if the tally exceeds max_dynamic_paths keep the
first max_dynamic_paths of the descending (count, path) sort, else keep
every tallied path; set statistics to MERGE with the kept tallies.  The
recursive call on each kept dynamic sub-column only reshapes collaborator
state and is not modelled. -/
def ColumnObject.takeDynamicStructureFromSourceColumns (C : ColumnObject)
    (sources : List ColumnObject) : Option ColumnObject :=
  if C.size ≠ 0 then none
  else
    let tally := sources.foldl tallyOne []
    let kept : List (String × Nat) :=
      if tally.length > C.max_dynamic_paths then
        ((List.insertionSort pairGe (tally.map (fun pn => (pn.2, pn.1)))).take
          C.max_dynamic_paths).map (fun sp => (sp.2, sp.1))
      else tally
    some { C with
      dynamic_paths := kept.map (fun pn => (pn.1, newDynamicColumn)),
      statistics :=
        { source := StatSource.MERGE,
          data := kept.map (fun pn => (pn.1, (tally.lookup pn.1).getD 0)) } }

/-! ### Concrete example columns used by witnesses and counterexamples -/

/-- A typed Int column model: accepts only Int values, default 0. -/
def intColumn (vals : List Int) : SubColumn :=
  { ok := fun v => match v with | Value.int _ => true | _ => false,
    dflt := Value.int 0,
    data := vals.map Value.int }

/-- A dynamic column model accepting everything. -/
def dynColumn (vals : List Value) : SubColumn :=
  { ok := fun _ => true, dflt := Value.null, data := vals }

/-- The always-accepting collaborator predicate for fresh dynamic columns. -/
def okAll : Value → Bool := fun _ => true

/-- An empty shared-data store. -/
def emptySD : SharedData := { paths := [], values := [], offsets := [] }

/-- Example: empty column, one typed path id, cap 2 dynamic paths. -/
def exC0 : ColumnObject :=
  { typed_paths := [("id", intColumn [])], dynamic_paths := [],
    shared_data := emptySD,
    max_dynamic_paths := 2, max_dynamic_types := 4, statistics := Statistics.default }

/-- Example: two rows, typed id, dynamic a, full cap, one shared row. -/
def exC1 : ColumnObject :=
  { typed_paths := [("id", intColumn [1, 2])],
    dynamic_paths := [("a", dynColumn [Value.str "x", Value.null]),
                      ("b", dynColumn [Value.null, Value.int 15])],
    shared_data := { paths := ["c"], values := [Value.int 99], offsets := [0, 1] },
    max_dynamic_paths := 2, max_dynamic_types := 4, statistics := Statistics.default }

/-- Example column carrying non-default statistics. -/
def exCStat : ColumnObject :=
  { typed_paths := [], dynamic_paths := [("a", dynColumn [Value.int 7])],
    shared_data := { paths := [], values := [], offsets := [0] },
    max_dynamic_paths := 2, max_dynamic_types := 4,
    statistics := { source := StatSource.MERGE, data := [("a", 1)] } }

/-- Example: a column whose typed path b rejects non-Int values, dynamic
cap 1; used to exhibit the tryInsert rollback leak. -/
def exCRollback : ColumnObject :=
  { typed_paths := [("b", intColumn [])], dynamic_paths := [],
    shared_data := emptySD,
    max_dynamic_paths := 1, max_dynamic_types := 4, statistics := Statistics.default }

/-- Example: an empty column with dynamic cap 1. -/
def exEmpty1 : ColumnObject :=
  { typed_paths := [], dynamic_paths := [], shared_data := emptySD,
    max_dynamic_paths := 1, max_dynamic_types := 4, statistics := Statistics.default }

/-- Example source for range copies: one row, typed id, three dynamic
paths (one will spill past a cap of 2), one sorted shared-data entry. -/
def exSrc4 : ColumnObject :=
  { typed_paths := [("id", intColumn [10])],
    dynamic_paths := [("a", dynColumn [Value.int 1]), ("b", dynColumn [Value.int 2]),
                      ("z", dynColumn [Value.int 3])],
    shared_data := { paths := ["m"], values := [Value.int 5], offsets := [1] },
    max_dynamic_paths := 3, max_dynamic_types := 4, statistics := Statistics.default }

/-- The readAt view of an intermediate deserialization state: entries
already deferred for the pending shared-data row override, then the
dynamic paths, then the typed paths, all read at the row being appended. -/
def projRead (newRow : Nat) (st : ColumnObject × List (String × Value)) (p : String) :
    Option Value :=
  match st.2.reverse.lookup p with
  | some v => some v
  | none =>
    match st.1.dynamic_paths.lookup p with
    | some c =>
      if c.valAt newRow = Value.null then (st.1.typed_paths.lookup p).map (fun tc => tc.valAt newRow)
      else some (c.valAt newRow)
    | none => (st.1.typed_paths.lookup p).map (fun tc => tc.valAt newRow)

/-- Example arena-round-trip source: one row whose dynamic path a is null,
shared data empty, cap 1 already reached. -/
def exC5src : ColumnObject :=
  { typed_paths := [], dynamic_paths := [("a", dynColumn [Value.null])],
    shared_data := { paths := [], values := [], offsets := [0] },
    max_dynamic_paths := 1, max_dynamic_types := 4, statistics := Statistics.default }

/-- Example arena-round-trip destination: same caps, empty, its single
dynamic-path slot taken by b, so a path a must be deferred to shared data. -/
def exC5dst : ColumnObject :=
  { typed_paths := [], dynamic_paths := [("b", dynColumn [])],
    shared_data := emptySD,
    max_dynamic_paths := 1, max_dynamic_types := 4, statistics := Statistics.default }

/-! ### Order lemmas for the path comparison -/

theorem lexLt_irrefl (l : List Nat) : lexLt l l = false := by
  induction l with
  | nil => rfl
  | cons a as ih => simp [lexLt, ih]

theorem lexLt_trans {a b c : List Nat} (h1 : lexLt a b = true) (h2 : lexLt b c = true) :
    lexLt a c = true := by
  induction a generalizing b c with
  | nil =>
    cases b with
    | nil => simp [lexLt] at h1
    | cons y ys =>
      cases c with
      | nil => simp [lexLt] at h2
      | cons z zs => simp [lexLt]
  | cons x xs ih =>
    cases b with
    | nil => simp [lexLt] at h1
    | cons y ys =>
      cases c with
      | nil => simp [lexLt] at h2
      | cons z zs =>
        simp only [lexLt] at h1 h2 ⊢
        rcases Nat.lt_trichotomy x y with hxy | hxy | hxy
        · rcases Nat.lt_trichotomy y z with hyz | hyz | hyz
          · simp [Nat.lt_trans hxy hyz]
          · subst hyz; simp [hxy]
          · simp [hyz, Nat.lt_asymm hyz] at h2
        · subst hxy
          rcases Nat.lt_trichotomy x z with hxz | hxz | hxz
          · simp [hxz]
          · subst hxz
            simp [Nat.lt_irrefl] at h1 h2 ⊢
            exact ih h1 h2
          · simp [hxz, Nat.lt_asymm hxz] at h2
        · simp [hxy, Nat.lt_asymm hxy] at h1

theorem lexLt_asymm {a b : List Nat} (h : lexLt a b = true) : lexLt b a = false := by
  by_contra hc
  have hba : lexLt b a = true := by
    cases hh : lexLt b a with
    | false => exact absurd hh hc
    | true => rfl
  have := lexLt_trans h hba
  rw [lexLt_irrefl] at this
  exact Bool.false_ne_true this

theorem lexLt_total_eq {a b : List Nat} (h1 : lexLt a b = false) (h2 : lexLt b a = false) :
    a = b := by
  induction a generalizing b with
  | nil =>
    cases b with
    | nil => rfl
    | cons y ys => simp [lexLt] at h1
  | cons x xs ih =>
    cases b with
    | nil => simp [lexLt] at h2
    | cons y ys =>
      simp only [lexLt] at h1 h2
      rcases Nat.lt_trichotomy x y with hxy | hxy | hxy
      · simp [hxy] at h1
      · subst hxy
        simp [Nat.lt_irrefl] at h1 h2
        rw [ih h1 h2]
      · simp [hxy] at h2

theorem strBytes_inj {a b : String} (h : strBytes a = strBytes b) : a = b := by
  apply String.ext
  have hinj : Function.Injective Char.toNat := fun c d hcd =>
    Char.eq_of_val_eq (UInt32.eq_of_toBitVec_eq (BitVec.toNat_injective hcd))
  exact List.map_injective_iff.mpr hinj h

theorem strLt_irrefl (a : String) : ¬ strLt a a := by
  simp [strLt, lexLt_irrefl]

theorem strLt_trans {a b c : String} (h1 : strLt a b) (h2 : strLt b c) : strLt a c :=
  lexLt_trans h1 h2

theorem strLt_asymm {a b : String} (h : strLt a b) : ¬ strLt b a := by
  simp [strLt, lexLt_asymm h]

theorem strLe_or_eq_of_not_lt {a b : String} (h : ¬ strLt a b) : strLt b a ∨ a = b := by
  cases hh : lexLt (strBytes b) (strBytes a) with
  | true => exact Or.inl hh
  | false =>
    have h1 : lexLt (strBytes a) (strBytes b) = false := by
      cases hg : lexLt (strBytes a) (strBytes b) with
      | false => rfl
      | true => exact absurd hg h
    exact Or.inr (strBytes_inj (lexLt_total_eq h1 hh))

theorem strLt_of_strLe_of_ne {a b : String} (h : strLe a b) (hne : a ≠ b) : strLt a b := by
  rcases strLe_or_eq_of_not_lt (a := b) (b := a) (by simpa [strLt, strLe] using h) with h2 | h2
  · exact h2
  · exact absurd h2.symm hne

theorem strLe_of_strLt {a b : String} (h : strLt a b) : strLe a b := lexLt_asymm h

theorem strLe_refl (a : String) : strLe a a := lexLt_irrefl _

instance : IsTotal String strLe := by
  constructor
  intro a b
  cases h : lexLt (strBytes b) (strBytes a) with
  | false => exact Or.inl h
  | true => exact Or.inr (lexLt_asymm h)

theorem strLe_iff_not_lt {a b : String} : strLe a b ↔ ¬ strLt b a := by
  unfold strLe strLt
  cases lexLt (strBytes b) (strBytes a) <;> simp

instance : IsTrans String strLe := by
  constructor
  intro a b c hab hbc
  rw [strLe_iff_not_lt] at hab hbc ⊢
  intro hca
  rcases strLe_or_eq_of_not_lt hab with h1 | h1
  · rcases strLe_or_eq_of_not_lt hbc with h2 | h2
    · exact strLt_asymm (strLt_trans h1 h2) hca
    · subst h2
      exact strLt_asymm h1 hca
  · subst h1
    exact hbc hca

/-! ### Shared-data row lemmas -/

theorem WF.toSDOk {C : ColumnObject} (h : WF C) : SDOk C.shared_data :=
  ⟨h.pv_len, h.last_off, h.offs_le⟩

theorem getD_mem_of_lt (l : List Nat) (n d : Nat) (h : n < l.length) : l.getD n d ∈ l := by
  rw [List.getD_eq_getElem?_getD, List.getElem?_eq_getElem h]
  exact List.getElem_mem h

theorem zip_fst_snd (l : List (String × Value)) :
    (l.map Prod.fst).zip (l.map Prod.snd) = l := (List.zip_of_prod rfl rfl).symm

theorem getD_last_eq (l : List Nat) : l.getD (l.length - 1) 0 = l.getLastD 0 := by
  cases l with
  | nil => rfl
  | cons a as =>
    rw [List.getLastD_eq_getLast?, List.getLast?_eq_getElem?, List.getD_eq_getElem?_getD]

theorem foldl_appendEntry (sd : SharedData) (r : List (String × Value)) :
    r.foldl (fun s pv => s.appendEntry pv.1 pv.2) sd
      = SharedData.mk (sd.paths ++ r.map Prod.fst) (sd.values ++ r.map Prod.snd) sd.offsets := by
  induction r generalizing sd with
  | nil => simp
  | cons pv rest ih =>
    show List.foldl _ (sd.appendEntry pv.1 pv.2) rest = _
    rw [ih]
    simp [SharedData.appendEntry]

theorem pushRow_eq (sd : SharedData) (r : List (String × Value)) :
    sd.pushRow r
      = SharedData.mk (sd.paths ++ r.map Prod.fst) (sd.values ++ r.map Prod.snd)
          (sd.offsets ++ [sd.paths.length + r.length]) := by
  simp [SharedData.pushRow, foldl_appendEntry, SharedData.pushOffset]

theorem SDOk.pushRow {sd : SharedData} (h : SDOk sd) (r : List (String × Value)) :
    SDOk (sd.pushRow r) := by
  rw [pushRow_eq]
  refine ⟨?_, ?_, ?_⟩
  · simp [h.pv]
  · simp [SharedData.lastOff, List.getLastD_concat]
  · intro o ho
    simp only [List.mem_append, List.mem_singleton] at ho
    rcases ho with ho | ho
    · have := h.le o ho
      simp only [List.length_append, List.length_map]
      omega
    · subst ho
      simp

theorem offsets_pushRow_length (sd : SharedData) (r : List (String × Value)) :
    (sd.pushRow r).offsets.length = sd.offsets.length + 1 := by
  rw [pushRow_eq]
  simp

theorem rowStart_mk (P : List String) (V : List Value) (O : List Nat) (m : Nat) :
    (SharedData.mk P V O).rowStart m = if m = 0 then 0 else O.getD (m - 1) 0 := rfl

theorem rowEnd_mk (P : List String) (V : List Value) (O : List Nat) (m : Nat) :
    (SharedData.mk P V O).rowEnd m = O.getD m 0 := rfl

theorem row_pushRow {sd : SharedData} (h : SDOk sd) (r : List (String × Value)) :
    (sd.pushRow r).row sd.offsets.length = r := by
  rw [pushRow_eq]
  unfold SharedData.row
  rw [rowStart_mk, rowEnd_mk]
  have hstart : (if sd.offsets.length = 0 then 0
      else (sd.offsets ++ [sd.paths.length + r.length]).getD (sd.offsets.length - 1) 0)
      = sd.paths.length := by
    by_cases h0 : sd.offsets.length = 0
    · have hnil : sd.offsets = [] := List.eq_nil_of_length_eq_zero h0
      have hlast := h.last
      simp only [SharedData.lastOff, hnil, List.getLastD_nil] at hlast
      simp [h0, ← hlast]
    · have hlt : sd.offsets.length - 1 < sd.offsets.length := by omega
      simp only [h0, if_false, List.getD_eq_getElem?_getD, List.getElem?_append, hlt, if_true]
      rw [← List.getD_eq_getElem?_getD, getD_last_eq]
      exact h.last
  have hend : (sd.offsets ++ [sd.paths.length + r.length]).getD sd.offsets.length 0
      = sd.paths.length + r.length := by
    simp [List.getD_eq_getElem?_getD, List.getElem?_append, Nat.lt_irrefl]
  rw [hstart, hend]
  have hzip : (sd.paths ++ r.map Prod.fst).zip (sd.values ++ r.map Prod.snd)
      = sd.paths.zip sd.values ++ (r.map Prod.fst).zip (r.map Prod.snd) :=
    List.zip_append h.pv.symm
  simp only [hzip]
  have hlen : (sd.paths.zip sd.values).length = sd.paths.length := by
    rw [List.length_zip, h.pv, Nat.min_self]
  rw [← hlen, List.drop_left, zip_fst_snd, Nat.add_sub_cancel_left]
  exact List.take_length r

theorem row_append_stable (sd : SharedData) (P : List String) (V : List Value) (O : List Nat)
    (m : Nat) (hm : m < sd.offsets.length) (hpv : sd.values.length = sd.paths.length)
    (hle : ∀ o ∈ sd.offsets, o ≤ sd.paths.length) (hPV : V.length = P.length) :
    (SharedData.mk (sd.paths ++ P) (sd.values ++ V) (sd.offsets ++ O)).row m = sd.row m := by
  unfold SharedData.row
  rw [rowStart_mk, rowEnd_mk]
  have hstart : (if m = 0 then 0 else (sd.offsets ++ O).getD (m - 1) 0) = sd.rowStart m := by
    unfold SharedData.rowStart
    by_cases h0 : m = 0
    · simp [h0]
    · have hlt : m - 1 < sd.offsets.length := by omega
      simp [List.getD_eq_getElem?_getD, List.getElem?_append, hlt]
  have hend : (sd.offsets ++ O).getD m 0 = sd.rowEnd m := by
    unfold SharedData.rowEnd
    simp [List.getD_eq_getElem?_getD, List.getElem?_append, hm]
  rw [hstart, hend]
  have hzip : (sd.paths ++ P).zip (sd.values ++ V) = sd.paths.zip sd.values ++ P.zip V :=
    List.zip_append hpv.symm
  simp only [hzip]
  have hlen : (sd.paths.zip sd.values).length = sd.paths.length := by
    rw [List.length_zip, hpv, Nat.min_self]
  have hsle : sd.rowStart m ≤ (sd.paths.zip sd.values).length := by
    rw [hlen]
    unfold SharedData.rowStart
    by_cases h0 : m = 0
    · simp [h0]
    · simp only [h0, if_false]
      by_cases hin : m - 1 < sd.offsets.length
      · exact hle _ (getD_mem_of_lt _ _ _ hin)
      · omega
  have hdrop : (sd.paths.zip sd.values ++ P.zip V).drop (sd.rowStart m)
      = (sd.paths.zip sd.values).drop (sd.rowStart m) ++ P.zip V := by
    rw [List.drop_append_eq_append_drop, Nat.sub_eq_zero_of_le hsle, List.drop_zero]
  rw [hdrop]
  have hele : sd.rowEnd m ≤ sd.paths.length := by
    unfold SharedData.rowEnd
    by_cases hin : m < sd.offsets.length
    · exact hle _ (getD_mem_of_lt _ _ _ hin)
    · omega
  have htake : sd.rowEnd m - sd.rowStart m ≤ ((sd.paths.zip sd.values).drop (sd.rowStart m)).length := by
    rw [List.length_drop, hlen]
    omega
  exact List.take_append_of_le_length htake

theorem row_pushRow_stable {sd : SharedData} (h : SDOk sd) (r : List (String × Value))
    (m : Nat) (hm : m < sd.offsets.length) : (sd.pushRow r).row m = sd.row m := by
  rw [pushRow_eq]
  exact row_append_stable sd _ _ _ m hm h.pv h.le (by simp)

theorem SDOk.pushRows {sd : SharedData} (h : SDOk sd) (rs : List (List (String × Value))) :
    SDOk (sd.pushRows rs) := by
  induction rs generalizing sd with
  | nil => exact h
  | cons r rest ih => exact ih (h.pushRow r)

theorem offsets_pushRows_length (sd : SharedData) (rs : List (List (String × Value))) :
    (sd.pushRows rs).offsets.length = sd.offsets.length + rs.length := by
  induction rs generalizing sd with
  | nil => simp [SharedData.pushRows]
  | cons r rest ih =>
    show (SharedData.pushRows _ rest).offsets.length = _
    rw [ih, offsets_pushRow_length]
    simp only [List.length_cons]
    omega

theorem row_pushRows_stable {sd : SharedData} (h : SDOk sd) (rs : List (List (String × Value)))
    (m : Nat) (hm : m < sd.offsets.length) : (sd.pushRows rs).row m = sd.row m := by
  induction rs generalizing sd with
  | nil => rfl
  | cons r rest ih =>
    show (SharedData.pushRows _ rest).row m = _
    rw [ih (h.pushRow r) (by rw [offsets_pushRow_length]; omega), row_pushRow_stable h r m hm]

theorem row_pushRows {sd : SharedData} (h : SDOk sd) (rs : List (List (String × Value)))
    (k : Nat) (hk : k < rs.length) :
    (sd.pushRows rs).row (sd.offsets.length + k) = rs.getD k [] := by
  induction rs generalizing sd k with
  | nil => simp at hk
  | cons r rest ih =>
    show (SharedData.pushRows _ rest).row _ = _
    cases k with
    | zero =>
      rw [Nat.add_zero]
      have hm : sd.offsets.length < (sd.pushRow r).offsets.length := by
        rw [offsets_pushRow_length]
        omega
      rw [row_pushRows_stable (h.pushRow r) rest _ hm, row_pushRow h r]
      rfl
    | succ k2 =>
      have hidx : sd.offsets.length + (k2 + 1) = (sd.pushRow r).offsets.length + k2 := by
        rw [offsets_pushRow_length]
        omega
      rw [hidx, ih (h.pushRow r) k2 (by simpa using hk)]
      rfl

/-! ### Association-list lemmas -/

theorem lookup_isSome_iff {β : Type} (l : List (String × β)) (p : String) :
    (l.lookup p).isSome ↔ p ∈ l.map Prod.fst := by
  induction l with
  | nil => simp [List.lookup]
  | cons qc rest ih =>
    rcases qc with ⟨q, c⟩
    by_cases h : p = q
    · simp [List.lookup, h]
    · have hb : (p == q) = false := by simpa using h
      simp [List.lookup, hb, ih, h]

theorem lookup_eq_none_iff {β : Type} (l : List (String × β)) (p : String) :
    l.lookup p = none ↔ p ∉ l.map Prod.fst := by
  rw [← lookup_isSome_iff]
  cases l.lookup p <;> simp

theorem updAssoc_keys (l : List (String × SubColumn)) (p : String) (f : SubColumn → SubColumn) :
    (updAssoc l p f).map Prod.fst = l.map Prod.fst := by
  induction l with
  | nil => rfl
  | cons pc rest ih =>
    simp only [updAssoc, List.map_cons] at ih ⊢
    by_cases h : pc.1 = p
    · simpa [h] using ih
    · simpa [h] using ih

theorem mem_eq_of_nodup_keys {β : Type} {l : List (String × β)}
    (hnd : (l.map Prod.fst).Nodup) {a b : String × β} (ha : a ∈ l) (hb : b ∈ l)
    (hk : a.1 = b.1) : a = b := by
  induction l with
  | nil => simp at ha
  | cons pc rest ih =>
    simp only [List.map_cons, List.nodup_cons] at hnd
    simp only [List.mem_cons] at ha hb
    rcases ha with ha | ha <;> rcases hb with hb | hb
    · rw [ha, hb]
    · exfalso
      apply hnd.1
      rw [ha] at hk
      rw [hk]
      exact List.mem_map_of_mem Prod.fst hb
    · exfalso
      apply hnd.1
      rw [hb] at hk
      rw [← hk]
      exact List.mem_map_of_mem Prod.fst ha
    · exact ih hnd.2 ha hb

theorem capSpillPred_congr {c1 c2 : ColumnObject}
    (ht : c1.typed_paths.map Prod.fst = c2.typed_paths.map Prod.fst)
    (hd : c1.dynamic_paths.map Prod.fst = c2.dynamic_paths.map Prod.fst) :
    capSpillPred c1 = capSpillPred c2 := by
  funext pv
  unfold capSpillPred
  rw [ht, hd]

/-! ### Insert at the dynamic-path cap (claim C2 infrastructure) -/

theorem foldl_insertEntry_at_cap (dynOk : Value → Bool) (entries : List (String × Value)) :
    ∀ cur : ColumnObject, cur.dynamic_paths.length = cur.max_dynamic_paths →
      (entries.foldl (insertEntry dynOk) cur).typed_paths.map Prod.fst = cur.typed_paths.map Prod.fst ∧
      (entries.foldl (insertEntry dynOk) cur).dynamic_paths.map Prod.fst = cur.dynamic_paths.map Prod.fst ∧
      (entries.foldl (insertEntry dynOk) cur).shared_data.offsets = cur.shared_data.offsets ∧
      (entries.foldl (insertEntry dynOk) cur).shared_data.paths
        = cur.shared_data.paths ++ (entries.filter (capSpillPred cur)).map Prod.fst ∧
      (entries.foldl (insertEntry dynOk) cur).shared_data.values
        = cur.shared_data.values ++ (entries.filter (capSpillPred cur)).map Prod.snd := by
  induction entries with
  | nil =>
    intro cur _
    simp
  | cons pv rest ih =>
    intro cur hfull
    rw [List.foldl_cons]
    by_cases ht : (cur.typed_paths.lookup pv.1).isSome
    · have hstep : insertEntry dynOk cur pv
          = { cur with typed_paths := updAssoc cur.typed_paths pv.1 (fun c => c.insertVal pv.2) } := by
        simp [insertEntry, ht]
      rw [hstep]
      obtain ⟨i1, i2, i3, i4, i5⟩ :=
        ih { cur with typed_paths := updAssoc cur.typed_paths pv.1 (fun c => c.insertVal pv.2) }
          (by simpa using hfull)
      have hkeys : (updAssoc cur.typed_paths pv.1 (fun c => c.insertVal pv.2)).map Prod.fst
          = cur.typed_paths.map Prod.fst := updAssoc_keys ..
      have hcongr : capSpillPred { cur with typed_paths := updAssoc cur.typed_paths pv.1 (fun c => c.insertVal pv.2) }
          = capSpillPred cur := capSpillPred_congr (by simpa using hkeys) rfl
      have hpred : capSpillPred cur pv = false := by
        have : pv.1 ∈ cur.typed_paths.map Prod.fst := (lookup_isSome_iff ..).mp ht
        simp [capSpillPred, this]
      rw [hcongr] at i4 i5
      simp only [List.filter_cons, hpred] at *
      exact ⟨by rw [i1]; simpa using hkeys, by simpa using i2, by simpa using i3,
        by simpa using i4, by simpa using i5⟩
    · by_cases hd : (cur.dynamic_paths.lookup pv.1).isSome
      · have hstep : insertEntry dynOk cur pv
            = { cur with dynamic_paths := updAssoc cur.dynamic_paths pv.1 (fun c => c.insertVal pv.2) } := by
          simp [insertEntry, ht, hd]
        rw [hstep]
        have hkeys : (updAssoc cur.dynamic_paths pv.1 (fun c => c.insertVal pv.2)).map Prod.fst
            = cur.dynamic_paths.map Prod.fst := updAssoc_keys ..
        obtain ⟨i1, i2, i3, i4, i5⟩ :=
          ih { cur with dynamic_paths := updAssoc cur.dynamic_paths pv.1 (fun c => c.insertVal pv.2) }
            (by
              show (updAssoc cur.dynamic_paths pv.1 (fun c => c.insertVal pv.2)).length
                = cur.max_dynamic_paths
              have hlen2 : (updAssoc cur.dynamic_paths pv.1 (fun c => c.insertVal pv.2)).length
                  = cur.dynamic_paths.length := by
                have := congrArg List.length hkeys
                simpa using this
              rw [hlen2]
              exact hfull)
        have hcongr : capSpillPred { cur with dynamic_paths := updAssoc cur.dynamic_paths pv.1 (fun c => c.insertVal pv.2) }
            = capSpillPred cur := capSpillPred_congr rfl (by simpa using hkeys)
        have hpred : capSpillPred cur pv = false := by
          have : pv.1 ∈ cur.dynamic_paths.map Prod.fst := (lookup_isSome_iff ..).mp hd
          simp [capSpillPred, this]
        rw [hcongr] at i4 i5
        simp only [List.filter_cons, hpred] at *
        exact ⟨by simpa using i1, by rw [i2]; simpa using hkeys, by simpa using i3,
          by simpa using i4, by simpa using i5⟩
      · by_cases hnull : pv.2 = Value.null
        · have hstep : insertEntry dynOk cur pv = cur := by
            simp [insertEntry, ht, hd, hfull, hnull]
          rw [hstep]
          obtain ⟨i1, i2, i3, i4, i5⟩ := ih cur hfull
          have hpred : capSpillPred cur pv = false := by
            simp [capSpillPred, hnull]
          simp only [List.filter_cons, hpred]
          exact ⟨i1, i2, i3, i4, i5⟩
        · have hstep : insertEntry dynOk cur pv
              = { cur with shared_data := cur.shared_data.appendEntry pv.1 pv.2 } := by
            simp [insertEntry, ht, hd, hfull, hnull]
          rw [hstep]
          obtain ⟨i1, i2, i3, i4, i5⟩ :=
            ih { cur with shared_data := cur.shared_data.appendEntry pv.1 pv.2 }
              (by simpa using hfull)
          have hcongr : capSpillPred { cur with shared_data := cur.shared_data.appendEntry pv.1 pv.2 }
              = capSpillPred cur := capSpillPred_congr rfl rfl
          have hpred : capSpillPred cur pv = true := by
            have h1 : pv.1 ∉ cur.typed_paths.map Prod.fst := by
              intro hmem
              exact ht ((lookup_isSome_iff ..).mpr hmem)
            have h2 : pv.1 ∉ cur.dynamic_paths.map Prod.fst := by
              intro hmem
              exact hd ((lookup_isSome_iff ..).mpr hmem)
            simp [capSpillPred, h1, h2, hnull]
          rw [hcongr] at i4 i5
          simp only [List.filter_cons, hpred] at *
          refine ⟨by simpa using i1, by simpa using i2, by simpa using i3, ?_, ?_⟩
          · rw [i4]
            simp [SharedData.appendEntry]
          · rw [i5]
            simp [SharedData.appendEntry]

/-! ### Claim C2 -/

theorem ite_pad_keys (l : List (String × SubColumn)) (f : SubColumn → SubColumn) (prev : Nat) :
    (l.map (fun pc => if pc.2.size = prev then (pc.1, f pc.2) else pc)).map Prod.fst
      = l.map Prod.fst := by
  induction l with
  | nil => rfl
  | cons pc rest ih =>
    simp only [List.map_cons]
    by_cases h : pc.2.size = prev
    · simpa [h] using ih
    · simpa [h] using ih

/-- Claim C2: once the dynamic-path count equals max_dynamic_paths, insert
creates no new dynamic path; the freshly appended shared-data row consists
exactly of the row entries whose path is neither typed nor dynamic and
whose value is not Null, in row order; each such entry with non-null value
is present while a null value makes the path a silent no-op. -/
theorem c2_insert_past_cap (dynOk : Value → Bool) (C : ColumnObject)
    (entries : List (String × Value)) (hwf : WF C)
    (hfull : C.dynamic_paths.length = C.max_dynamic_paths)
    (hnodup : (entries.map Prod.fst).Nodup) :
    (C.insertObject dynOk entries).dynamic_paths.map Prod.fst = C.dynamic_paths.map Prod.fst ∧
    (C.insertObject dynOk entries).shared_data.row C.size = entries.filter (capSpillPred C) ∧
    (∀ pv ∈ entries, pv.1 ∉ C.typed_paths.map Prod.fst → pv.1 ∉ C.dynamic_paths.map Prod.fst →
      (pv.2 ≠ Value.null → pv ∈ (C.insertObject dynOk entries).shared_data.row C.size) ∧
      (pv.2 = Value.null → pv.1 ∉ ((C.insertObject dynOk entries).shared_data.row C.size).map Prod.fst)) := by
  obtain ⟨i1, i2, i3, i4, i5⟩ := foldl_insertEntry_at_cap dynOk entries C hfull
  have hkeys : (C.insertObject dynOk entries).dynamic_paths.map Prod.fst
      = C.dynamic_paths.map Prod.fst := by
    show ((entries.foldl (insertEntry dynOk) C).dynamic_paths.map
        (fun pc => if pc.2.size = C.size then (pc.1, pc.2.insertDefault) else pc)).map Prod.fst = _
    rw [ite_pad_keys]
    exact i2
  have hsd : (C.insertObject dynOk entries).shared_data
      = C.shared_data.pushRow (entries.filter (capSpillPred C)) := by
    show (entries.foldl (insertEntry dynOk) C).shared_data.pushOffset = _
    rw [pushRow_eq]
    unfold SharedData.pushOffset
    rw [i3, i4, i5]
    simp
  have hrow : (C.insertObject dynOk entries).shared_data.row C.size
      = entries.filter (capSpillPred C) := by
    rw [hsd]
    exact row_pushRow hwf.toSDOk _
  refine ⟨hkeys, hrow, ?_⟩
  intro pv hpv h1 h2
  constructor
  · intro hnn
    rw [hrow]
    rw [List.mem_filter]
    refine ⟨hpv, ?_⟩
    simp [capSpillPred, h1, h2, hnn]
  · intro hnull hmem
    rw [hrow] at hmem
    rcases List.mem_map.mp hmem with ⟨q, hq, hqk⟩
    have hqe := List.mem_filter.mp hq
    have : q = pv := mem_eq_of_nodup_keys hnodup hqe.1 hpv hqk
    rw [this] at hqe
    simp [capSpillPred, hnull] at hqe

/-- Witness for C2: a concrete column at its dynamic cap, a row with one
null entry (dropped) and one non-null entry (spilled). -/
theorem c2_insert_past_cap_witness :
    WF exC1 ∧ exC1.dynamic_paths.length = exC1.max_dynamic_paths ∧
      (exC1.insertObject okAll [("d", Value.null), ("e", Value.int 5)]).shared_data.row exC1.size
        = [("e", Value.int 5)] := by
  have hwf : WF exC1 :=
    ⟨by decide, by decide, by decide, by decide, by decide, by decide, by decide, by decide⟩
  refine ⟨hwf, by decide, ?_⟩
  have h := (c2_insert_past_cap okAll exC1 [("d", Value.null), ("e", Value.int 5)] hwf
    (by decide) (by decide)).2.1
  rw [h]
  decide

/-! ### Claim C3 infrastructure -/

theorem forall₂_mem_left {α β : Type} {r : α → β → Prop} {l1 : List α} {l2 : List β}
    (h : List.Forall₂ r l1 l2) {a : α} (ha : a ∈ l1) : ∃ b ∈ l2, r a b := by
  induction h with
  | nil => simp at ha
  | cons hr _ ih =>
    rcases List.mem_cons.mp ha with h1 | h1
    · subst h1
      exact ⟨_, List.mem_cons_self .., hr⟩
    · rcases ih h1 with ⟨b, hb, hrb⟩
      exact ⟨b, List.mem_cons_of_mem _ hb, hrb⟩

theorem forall₂_mem_right {α β : Type} {r : α → β → Prop} {l1 : List α} {l2 : List β}
    (h : List.Forall₂ r l1 l2) {b : β} (hb : b ∈ l2) : ∃ a ∈ l1, r a b := by
  induction h with
  | nil => simp at hb
  | cons hr _ ih =>
    rcases List.mem_cons.mp hb with h1 | h1
    · subst h1
      exact ⟨_, List.mem_cons_self .., hr⟩
    · rcases ih h1 with ⟨a, ha, hra⟩
      exact ⟨a, List.mem_cons_of_mem _ ha, hra⟩

theorem forall₂_append_split {α β : Type} {r : α → β → Prop} {l1 l2 : List α} {l : List β}
    (h : List.Forall₂ r (l1 ++ l2) l) :
    ∃ u v, l = u ++ v ∧ List.Forall₂ r l1 u ∧ List.Forall₂ r l2 v := by
  induction l1 generalizing l with
  | nil => exact ⟨[], l, rfl, List.Forall₂.nil, h⟩
  | cons a rest ih =>
    rcases List.forall₂_cons_left_iff.mp h with ⟨b, u0, hb, hrest, hl⟩
    rcases ih hrest with ⟨u, v, hu, h1, h2⟩
    exact ⟨b :: u, v, by rw [hl, hu]; rfl, List.Forall₂.cons hb h1, h2⟩

theorem padRel_keys {keys : List String} {l1 l2 : List (String × SubColumn)}
    (h : List.Forall₂ (padRel keys) l1 l2) : l2.map Prod.fst = l1.map Prod.fst := by
  induction h with
  | nil => rfl
  | cons hr _ ih =>
    simp only [List.map_cons, ih, hr.1]

theorem padRel_weaken {keys keys2 : List String} (hsub : ∀ p, p ∉ keys2 → p ∉ keys)
    {l1 l2 : List (String × SubColumn)} (h : List.Forall₂ (padRel keys) l1 l2) :
    List.Forall₂ (padRel keys2) l1 l2 :=
  h.imp (fun _ _ hr => ⟨hr.1, hr.2.1, fun hn => hr.2.2 (hsub _ hn)⟩)

/-- The loop of ColumnObject::insert, characterized: lengths stay at the
pre-call count or one above, offsets are untouched, the flattened shared
columns only grow in sync, pre-existing sub-columns keep key and default
and are untouched when their key is not in the row, new dynamic columns
are appended at the end with exactly the new length and a Null default,
and dynamic keys stay unique. -/
theorem foldl_insertEntry_struct (dynOk : Value → Bool) (entries : List (String × Value)) :
    ∀ (cur : ColumnObject) (N : Nat), (entries.map Prod.fst).Nodup →
      (∀ pc ∈ cur.typed_paths, (pc.2 : SubColumn).data.length = N ∨
        ((pc.2 : SubColumn).data.length = N + 1 ∧ pc.1 ∉ entries.map Prod.fst)) →
      (∀ pc ∈ cur.dynamic_paths, (pc.2 : SubColumn).data.length = N ∨
        ((pc.2 : SubColumn).data.length = N + 1 ∧ pc.1 ∉ entries.map Prod.fst)) →
      cur.size = N →
      cur.shared_data.values.length = cur.shared_data.paths.length →
      (cur.dynamic_paths.map Prod.fst).Nodup →
      (∀ pc ∈ (entries.foldl (insertEntry dynOk) cur).typed_paths,
        (pc.2 : SubColumn).data.length = N ∨ (pc.2 : SubColumn).data.length = N + 1) ∧
      (∀ pc ∈ (entries.foldl (insertEntry dynOk) cur).dynamic_paths,
        (pc.2 : SubColumn).data.length = N ∨ (pc.2 : SubColumn).data.length = N + 1) ∧
      (entries.foldl (insertEntry dynOk) cur).shared_data.offsets = cur.shared_data.offsets ∧
      (entries.foldl (insertEntry dynOk) cur).shared_data.values.length
        = (entries.foldl (insertEntry dynOk) cur).shared_data.paths.length ∧
      (∃ t, (entries.foldl (insertEntry dynOk) cur).shared_data.paths
        = cur.shared_data.paths ++ t) ∧
      List.Forall₂ (padRel (entries.map Prod.fst)) cur.typed_paths
        (entries.foldl (insertEntry dynOk) cur).typed_paths ∧
      (∃ pre extra, (entries.foldl (insertEntry dynOk) cur).dynamic_paths = pre ++ extra ∧
        List.Forall₂ (padRel (entries.map Prod.fst)) cur.dynamic_paths pre ∧
        (∀ pc ∈ extra, (pc.2 : SubColumn).data.length = N + 1 ∧ (pc.2 : SubColumn).dflt = Value.null)) ∧
      ((entries.foldl (insertEntry dynOk) cur).dynamic_paths.map Prod.fst).Nodup := by
  induction entries with
  | nil =>
    intro cur N _ _ _ _ h4 h5
    refine ⟨fun pc hpc => ?_, fun pc hpc => ?_, rfl, h4, ⟨[], by simp⟩,
      List.forall₂_same.mpr (fun pc _ => ⟨rfl, rfl, fun _ => rfl⟩),
      ⟨cur.dynamic_paths, [], by simp, List.forall₂_same.mpr (fun pc _ => ⟨rfl, rfl, fun _ => rfl⟩),
        by simp⟩, h5⟩
    · rcases ‹∀ pc ∈ cur.typed_paths, _› pc hpc with h | h
      · exact Or.inl h
      · exact Or.inr h.1
    · rcases ‹∀ pc ∈ cur.dynamic_paths, _› pc hpc with h | h
      · exact Or.inl h
      · exact Or.inr h.1
  | cons pv rest ih =>
    intro cur N hnodup h1 h2 h3 h4 h5
    have hnodup2 : (rest.map Prod.fst).Nodup := by
      simpa using hnodup.of_cons
    have hpnotin : pv.1 ∉ rest.map Prod.fst := by
      have := hnodup
      simp only [List.map_cons, List.nodup_cons] at this
      exact this.1
    rw [List.foldl_cons]
    by_cases ht : (cur.typed_paths.lookup pv.1).isSome
    · have hstep : insertEntry dynOk cur pv
          = { cur with typed_paths := updAssoc cur.typed_paths pv.1 (fun c => c.insertVal pv.2) } := by
        simp [insertEntry, ht]
      rw [hstep]
      have hmain := ih { cur with typed_paths := updAssoc cur.typed_paths pv.1 (fun c => c.insertVal pv.2) } N
        hnodup2
        (by
          intro pc hpc
          simp only [updAssoc, List.mem_map] at hpc
          rcases hpc with ⟨pc0, hpc0, hpc0e⟩
          by_cases hk : pc0.1 = pv.1
          · rw [← hpc0e]
            simp only [hk, if_true]
            rcases h1 pc0 hpc0 with hl | hl
            · refine Or.inr ⟨?_, by simpa using hpnotin⟩
              simp [SubColumn.insertVal, hl]
            · exfalso
              apply hl.2
              rw [hk]
              simp
          · rw [← hpc0e]
            simp only [hk, if_false]
            rcases h1 pc0 hpc0 with hl | hl
            · exact Or.inl hl
            · exact Or.inr ⟨hl.1, fun hmem => hl.2 (by rw [List.map_cons]; exact List.mem_cons_of_mem _ hmem)⟩)
        (by
          intro pc hpc
          rcases h2 pc hpc with hl | hl
          · exact Or.inl hl
          · exact Or.inr ⟨hl.1, fun hmem => hl.2 (by rw [List.map_cons]; exact List.mem_cons_of_mem _ hmem)⟩)
        (by simpa using h3)
        (by simpa using h4)
        (by simpa using h5)
      obtain ⟨c1, c2, c3, c4, c5, c6, c7, c8⟩ := hmain
      refine ⟨c1, c2, by simpa using c3, c4, by simpa using c5, ?_, ?_, c8⟩
      · unfold updAssoc at c6
        have hmap := List.forall₂_map_left_iff.mp c6
        refine hmap.imp ?_
        intro a b hr
        rcases hr with ⟨hk, hdd2, hu⟩
        by_cases hak : a.1 = pv.1
        · simp only [hak, if_true] at hk hdd2 hu
          refine ⟨by rw [hak]; simpa using hk, by simpa [SubColumn.insertVal] using hdd2, fun hnot => ?_⟩
          exfalso
          apply hnot
          rw [List.map_cons, hak]
          exact List.mem_cons_self ..
        · simp only [hak, if_false] at hk hdd2 hu
          refine ⟨hk, hdd2, fun hnot => ?_⟩
          exact hu (fun hmem => hnot (by rw [List.map_cons]; exact List.mem_cons_of_mem _ hmem))
      · rcases c7 with ⟨pre, extra, he, hrel, hextra⟩
        refine ⟨pre, extra, by simpa using he, ?_, hextra⟩
        exact padRel_weaken (fun p hp hmem => hp (by rw [List.map_cons]; exact List.mem_cons_of_mem _ hmem))
          hrel
    · by_cases hd : (cur.dynamic_paths.lookup pv.1).isSome
      · have hstep : insertEntry dynOk cur pv
            = { cur with dynamic_paths := updAssoc cur.dynamic_paths pv.1 (fun c => c.insertVal pv.2) } := by
          simp [insertEntry, ht, hd]
        rw [hstep]
        have hmain := ih { cur with dynamic_paths := updAssoc cur.dynamic_paths pv.1 (fun c => c.insertVal pv.2) } N
          hnodup2
          (by
            intro pc hpc
            rcases h1 pc hpc with hl | hl
            · exact Or.inl hl
            · exact Or.inr ⟨hl.1, fun hmem => hl.2 (by rw [List.map_cons]; exact List.mem_cons_of_mem _ hmem)⟩)
          (by
            intro pc hpc
            simp only [updAssoc, List.mem_map] at hpc
            rcases hpc with ⟨pc0, hpc0, hpc0e⟩
            by_cases hk : pc0.1 = pv.1
            · rw [← hpc0e]
              simp only [hk, if_true]
              rcases h2 pc0 hpc0 with hl | hl
              · refine Or.inr ⟨?_, by simpa using hpnotin⟩
                simp [SubColumn.insertVal, hl]
              · exfalso
                apply hl.2
                rw [hk]
                simp
            · rw [← hpc0e]
              simp only [hk, if_false]
              rcases h2 pc0 hpc0 with hl | hl
              · exact Or.inl hl
              · exact Or.inr ⟨hl.1, fun hmem => hl.2 (by rw [List.map_cons]; exact List.mem_cons_of_mem _ hmem)⟩)
          (by simpa using h3)
          (by simpa using h4)
          (by
            show ((updAssoc cur.dynamic_paths pv.1 (fun c => c.insertVal pv.2)).map Prod.fst).Nodup
            rw [updAssoc_keys]
            exact h5)
        obtain ⟨c1, c2, c3, c4, c5, c6, c7, c8⟩ := hmain
        refine ⟨c1, c2, by simpa using c3, c4, by simpa using c5, ?_, ?_, c8⟩
        · refine (by simpa using c6 : List.Forall₂ _ cur.typed_paths _).imp ?_
          intro a b hr
          exact ⟨hr.1, hr.2.1, fun hnot => hr.2.2 (fun hmem => hnot
            (by rw [List.map_cons]; exact List.mem_cons_of_mem _ hmem))⟩
        · rcases c7 with ⟨pre, extra, he, hrel, hextra⟩
          unfold updAssoc at hrel
          have hrel2 := List.forall₂_map_left_iff.mp hrel
          refine ⟨pre, extra, by simpa using he, ?_, hextra⟩
          refine hrel2.imp ?_
          intro a b hr
          rcases hr with ⟨hk, hdd2, hu⟩
          by_cases hak : a.1 = pv.1
          · simp only [hak, if_true] at hk hdd2 hu
            refine ⟨by rw [hak]; simpa using hk, by simpa [SubColumn.insertVal] using hdd2, fun hnot => ?_⟩
            exfalso
            apply hnot
            rw [List.map_cons, hak]
            exact List.mem_cons_self ..
          · simp only [hak, if_false] at hk hdd2 hu
            refine ⟨hk, hdd2, fun hnot => ?_⟩
            exact hu (fun hmem => hnot (by rw [List.map_cons]; exact List.mem_cons_of_mem _ hmem))
      · by_cases hcap : cur.dynamic_paths.length = cur.max_dynamic_paths
        · by_cases hnull : pv.2 = Value.null
          · have hstep : insertEntry dynOk cur pv = cur := by
              simp [insertEntry, ht, hd, hcap, hnull]
            rw [hstep]
            have hmain := ih cur N hnodup2
              (by
                intro pc hpc
                rcases h1 pc hpc with hl | hl
                · exact Or.inl hl
                · exact Or.inr ⟨hl.1, fun hmem => hl.2 (by rw [List.map_cons]; exact List.mem_cons_of_mem _ hmem)⟩)
              (by
                intro pc hpc
                rcases h2 pc hpc with hl | hl
                · exact Or.inl hl
                · exact Or.inr ⟨hl.1, fun hmem => hl.2 (by rw [List.map_cons]; exact List.mem_cons_of_mem _ hmem)⟩)
              h3 h4 h5
            obtain ⟨c1, c2, c3, c4, c5, c6, c7, c8⟩ := hmain
            refine ⟨c1, c2, c3, c4, c5, ?_, ?_, c8⟩
            · exact padRel_weaken (fun p hp hmem => hp (by rw [List.map_cons]; exact List.mem_cons_of_mem _ hmem)) c6
            · rcases c7 with ⟨pre, extra, he, hrel, hextra⟩
              exact ⟨pre, extra, he,
                padRel_weaken (fun p hp hmem => hp (by rw [List.map_cons]; exact List.mem_cons_of_mem _ hmem)) hrel,
                hextra⟩
          · have hstep : insertEntry dynOk cur pv
                = { cur with shared_data := cur.shared_data.appendEntry pv.1 pv.2 } := by
              simp [insertEntry, ht, hd, hcap, hnull]
            rw [hstep]
            have hmain := ih { cur with shared_data := cur.shared_data.appendEntry pv.1 pv.2 } N
              hnodup2
              (by
                intro pc hpc
                rcases h1 pc hpc with hl | hl
                · exact Or.inl hl
                · exact Or.inr ⟨hl.1, fun hmem => hl.2 (by rw [List.map_cons]; exact List.mem_cons_of_mem _ hmem)⟩)
              (by
                intro pc hpc
                rcases h2 pc hpc with hl | hl
                · exact Or.inl hl
                · exact Or.inr ⟨hl.1, fun hmem => hl.2 (by rw [List.map_cons]; exact List.mem_cons_of_mem _ hmem)⟩)
              (by simpa [ColumnObject.size, SharedData.appendEntry] using h3)
              (by simpa [SharedData.appendEntry] using h4)
              (by simpa using h5)
            obtain ⟨c1, c2, c3, c4, c5, c6, c7, c8⟩ := hmain
            refine ⟨c1, c2, by simpa [SharedData.appendEntry] using c3, c4, ?_, ?_, ?_, c8⟩
            · rcases c5 with ⟨t, hht⟩
              refine ⟨pv.1 :: t, ?_⟩
              rw [hht]
              simp [SharedData.appendEntry]
            · exact padRel_weaken (fun p hp hmem => hp (by rw [List.map_cons]; exact List.mem_cons_of_mem _ hmem))
                (by simpa using c6)
            · rcases c7 with ⟨pre, extra, he, hrel, hextra⟩
              exact ⟨pre, extra, by simpa using he,
                padRel_weaken (fun p hp hmem => hp (by rw [List.map_cons]; exact List.mem_cons_of_mem _ hmem))
                  (by simpa using hrel),
                hextra⟩
        · have hstep : insertEntry dynOk cur pv
              = { cur with dynamic_paths :=
                  cur.dynamic_paths ++ [(pv.1, (freshDynamic dynOk cur.size).insertVal pv.2)] } := by
            simp [insertEntry, ht, hd, hcap]
          rw [hstep]
          have hnewlen : ((freshDynamic dynOk cur.size).insertVal pv.2).data.length = N + 1 := by
            simp [freshDynamic, SubColumn.insertVal, h3, ColumnObject.size]
            rw [← h3]
            rfl
          have hpnew : pv.1 ∉ cur.dynamic_paths.map Prod.fst := by
            intro hmem
            exact hd ((lookup_isSome_iff ..).mpr hmem)
          have hmain := ih { cur with dynamic_paths :=
              cur.dynamic_paths ++ [(pv.1, (freshDynamic dynOk cur.size).insertVal pv.2)] } N
            hnodup2
            (by
              intro pc hpc
              rcases h1 pc hpc with hl | hl
              · exact Or.inl hl
              · exact Or.inr ⟨hl.1, fun hmem => hl.2 (by rw [List.map_cons]; exact List.mem_cons_of_mem _ hmem)⟩)
            (by
              intro pc hpc
              simp only [List.mem_append, List.mem_singleton] at hpc
              rcases hpc with hpc | hpc
              · rcases h2 pc hpc with hl | hl
                · exact Or.inl hl
                · exact Or.inr ⟨hl.1, fun hmem => hl.2 (by rw [List.map_cons]; exact List.mem_cons_of_mem _ hmem)⟩
              · subst hpc
                exact Or.inr ⟨hnewlen, hpnotin⟩)
            (by simpa using h3)
            (by simpa using h4)
            (by
              show ((cur.dynamic_paths ++ [(pv.1, _)]).map Prod.fst).Nodup
              rw [List.map_append]
              simp only [List.map_cons, List.map_nil]
              rw [List.nodup_append]
              exact ⟨h5, List.nodup_singleton _, by
                intro a ha hb
                simp only [List.mem_singleton] at hb
                rw [hb] at ha
                exact hpnew ha⟩)
          obtain ⟨c1, c2, c3, c4, c5, c6, c7, c8⟩ := hmain
          refine ⟨c1, c2, by simpa using c3, c4, by simpa using c5, ?_, ?_, c8⟩
          · exact padRel_weaken (fun p hp hmem => hp (by rw [List.map_cons]; exact List.mem_cons_of_mem _ hmem))
              (by simpa using c6)
          · rcases c7 with ⟨pre, extra, he, hrel, hextra⟩
            rcases forall₂_append_split (by simpa using hrel) with ⟨u, v, huv, hu, hv⟩
            rcases List.forall₂_cons_left_iff.mp hv with ⟨b, v0, hb, hv0, hveq⟩
            have hv0nil : v0 = [] := List.forall₂_nil_left_iff.mp hv0
            refine ⟨u, b :: extra, ?_, ?_, ?_⟩
            · rw [he, huv, hveq, hv0nil]
              simp
            · exact padRel_weaken (fun p hp hmem => hp (by rw [List.map_cons]; exact List.mem_cons_of_mem _ hmem)) hu
            · intro pc hpc
              rcases List.mem_cons.mp hpc with hb2 | hb2
              · subst hb2
                rcases hb with ⟨hk, hdd, hu2⟩
                have := hu2 hpnotin
                rw [this]
                exact ⟨hnewlen, rfl⟩
              · exact hextra pc hb2

/-- Claim C3: on every well-formed column, insert of a row with unique keys
leaves every typed column, every dynamic column (including any dynamic path
created mid-row) and the shared-data column at exactly the pre-call row
count plus one, the whole column stays well-formed, and every pre-existing
sub-column whose path is not in the row is padded with exactly one default. -/
theorem c3_insert_length_coherence (dynOk : Value → Bool) (C : ColumnObject)
    (entries : List (String × Value)) (hwf : WF C)
    (hnodup : (entries.map Prod.fst).Nodup) :
    WF (C.insertObject dynOk entries) ∧
    (C.insertObject dynOk entries).size = C.size + 1 ∧
    (∀ pc ∈ (C.insertObject dynOk entries).typed_paths,
      (pc.2 : SubColumn).data.length = C.size + 1) ∧
    (∀ pc ∈ (C.insertObject dynOk entries).dynamic_paths,
      (pc.2 : SubColumn).data.length = C.size + 1) ∧
    (∀ pc ∈ C.typed_paths, pc.1 ∉ entries.map Prod.fst →
      (pc.1, { pc.2 with data := pc.2.data ++ [(pc.2 : SubColumn).dflt] })
        ∈ (C.insertObject dynOk entries).typed_paths) ∧
    (∀ pc ∈ C.dynamic_paths, pc.1 ∉ entries.map Prod.fst →
      (pc.1, { pc.2 with data := pc.2.data ++ [(pc.2 : SubColumn).dflt] })
        ∈ (C.insertObject dynOk entries).dynamic_paths) := by
  obtain ⟨c1, c2, c3, c4, c5, c6, c7, c8⟩ :=
    foldl_insertEntry_struct dynOk entries C C.size hnodup
      (fun pc hpc => Or.inl (hwf.typed_len pc hpc))
      (fun pc hpc => Or.inl (hwf.dyn_len pc hpc))
      rfl hwf.pv_len hwf.dyn_nodup
  have hT : (C.insertObject dynOk entries).typed_paths
      = (entries.foldl (insertEntry dynOk) C).typed_paths.map
          (fun pc => if pc.2.size = C.size then (pc.1, pc.2.insertDefault) else pc) := rfl
  have hD : (C.insertObject dynOk entries).dynamic_paths
      = (entries.foldl (insertEntry dynOk) C).dynamic_paths.map
          (fun pc => if pc.2.size = C.size then (pc.1, pc.2.insertDefault) else pc) := rfl
  have hS : (C.insertObject dynOk entries).shared_data
      = (entries.foldl (insertEntry dynOk) C).shared_data.pushOffset := rfl
  have hsize : (C.insertObject dynOk entries).size = C.size + 1 := by
    show (C.insertObject dynOk entries).shared_data.offsets.length = _
    rw [hS]
    unfold SharedData.pushOffset
    simp only [List.length_append, List.length_cons, List.length_nil]
    rw [c3]
    rfl
  have htlen : ∀ pc ∈ (C.insertObject dynOk entries).typed_paths,
      (pc.2 : SubColumn).data.length = C.size + 1 := by
    intro pc hpc
    rw [hT] at hpc
    rcases List.mem_map.mp hpc with ⟨q, hq, hqe⟩
    rcases c1 q hq with hl | hl
    · rw [← hqe]
      simp [SubColumn.size, hl, SubColumn.insertDefault]
    · rw [← hqe]
      have hne : ¬ q.2.size = C.size := by
        unfold SubColumn.size
        omega
      simp [hne, hl]
  have hdlen : ∀ pc ∈ (C.insertObject dynOk entries).dynamic_paths,
      (pc.2 : SubColumn).data.length = C.size + 1 := by
    intro pc hpc
    rw [hD] at hpc
    rcases List.mem_map.mp hpc with ⟨q, hq, hqe⟩
    rcases c2 q hq with hl | hl
    · rw [← hqe]
      simp [SubColumn.size, hl, SubColumn.insertDefault]
    · rw [← hqe]
      have hne : ¬ q.2.size = C.size := by
        unfold SubColumn.size
        omega
      simp [hne, hl]
  rcases c5 with ⟨t, hpathst⟩
  rcases c7 with ⟨pre, extra, hsplit, hrel, hextra⟩
  have hwf2 : WF (C.insertObject dynOk entries) := by
    refine ⟨?_, ?_, ?_, ?_, ?_, ?_, ?_, ?_⟩
    · intro pc hpc
      rw [hsize]
      exact htlen pc hpc
    · intro pc hpc
      rw [hsize]
      exact hdlen pc hpc
    · rw [hS]
      unfold SharedData.pushOffset
      exact c4
    · rw [hS]
      unfold SharedData.lastOff SharedData.pushOffset
      simp [List.getLastD_concat]
    · rw [hS]
      unfold SharedData.pushOffset
      intro o ho
      simp only [List.mem_append, List.mem_singleton] at ho
      rcases ho with ho | ho
      · rw [c3] at ho
        have h1 := hwf.offs_le o ho
        have h2 : C.shared_data.paths.length
            ≤ (entries.foldl (insertEntry dynOk) C).shared_data.paths.length := by
          rw [hpathst]
          simp
        have h3 : o ≤ (entries.foldl (insertEntry dynOk) C).shared_data.paths.length := by
          omega
        simpa using h3
      · subst ho
        simp
    · rw [hT, ite_pad_keys, padRel_keys c6]
      exact hwf.typed_nodup
    · rw [hD, ite_pad_keys]
      exact c8
    · intro pc hpc
      rw [hD] at hpc
      rcases List.mem_map.mp hpc with ⟨q, hq, hqe⟩
      have hqd : (q.2 : SubColumn).dflt = Value.null := by
        rw [hsplit] at hq
        rcases List.mem_append.mp hq with hq1 | hq1
        · rcases forall₂_mem_right hrel hq1 with ⟨a, ha, har⟩
          rw [har.2.1]
          exact hwf.dyn_dflt a ha
        · exact (hextra q hq1).2
      rw [← hqe]
      by_cases hc : q.2.size = C.size
      · simpa [hc, SubColumn.insertDefault] using hqd
      · simpa [hc] using hqd
  have hpadT : ∀ pc ∈ C.typed_paths, pc.1 ∉ entries.map Prod.fst →
      (pc.1, { pc.2 with data := pc.2.data ++ [(pc.2 : SubColumn).dflt] })
        ∈ (C.insertObject dynOk entries).typed_paths := by
    intro pc hpc hnot
    rcases forall₂_mem_left c6 hpc with ⟨b, hb, hbr⟩
    have hbe : b = pc := hbr.2.2 hnot
    rw [hbe] at hb
    rw [hT]
    have hsz : (pc.2 : SubColumn).size = C.size := hwf.typed_len pc hpc
    have hmem := List.mem_map_of_mem
      (fun pc => if (pc.2 : SubColumn).size = C.size then (pc.1, pc.2.insertDefault) else pc) hb
    simpa [hsz, SubColumn.insertDefault] using hmem
  have hpadD : ∀ pc ∈ C.dynamic_paths, pc.1 ∉ entries.map Prod.fst →
      (pc.1, { pc.2 with data := pc.2.data ++ [(pc.2 : SubColumn).dflt] })
        ∈ (C.insertObject dynOk entries).dynamic_paths := by
    intro pc hpc hnot
    rcases forall₂_mem_left hrel hpc with ⟨b, hb, hbr⟩
    have hbe : b = pc := hbr.2.2 hnot
    rw [hbe] at hb
    have hb2 : pc ∈ (entries.foldl (insertEntry dynOk) C).dynamic_paths := by
      rw [hsplit]
      exact List.mem_append_left _ hb
    rw [hD]
    have hsz : (pc.2 : SubColumn).size = C.size := hwf.dyn_len pc hpc
    have hmem := List.mem_map_of_mem
      (fun pc => if (pc.2 : SubColumn).size = C.size then (pc.1, pc.2.insertDefault) else pc) hb2
    simpa [hsz, SubColumn.insertDefault] using hmem
  exact ⟨hwf2, hsize, htlen, hdlen, hpadT, hpadD⟩

/-- Witness for C3: a concrete insert that creates the dynamic path a
mid-row and pads the typed path id (row count goes from 0 to 1). -/
theorem c3_insert_length_coherence_witness :
    WF exC0 ∧ (exC0.insertObject okAll [("a", Value.int 5)]).size = exC0.size + 1 ∧
      WF (exC0.insertObject okAll [("a", Value.int 5)]) := by
  have hwf : WF exC0 :=
    ⟨by decide, by decide, by decide, by decide, by decide, by decide, by decide, by decide⟩
  have h := c3_insert_length_coherence okAll exC0 [("a", Value.int 5)] hwf (by decide)
  exact ⟨hwf, h.2.1, h.1⟩

/-! ### Claim C1 infrastructure -/

theorem tryIntermediate_refl (C0 : ColumnObject) : tryIntermediate C0 C0 := by
  refine ⟨List.forall₂_same.mpr (fun pc _ => ⟨rfl, rfl, rfl, [], by simp⟩),
    ⟨C0.dynamic_paths, [], by simp,
      List.forall₂_same.mpr (fun pc _ => ⟨rfl, rfl, rfl, [], by simp⟩), by simp⟩,
    ⟨[], by simp⟩, ⟨[], by simp⟩, rfl, rfl, rfl, rfl⟩

theorem tryIntermediate_size {C0 cur : ColumnObject} (h : tryIntermediate C0 cur) :
    cur.size = C0.size := by
  show cur.shared_data.offsets.length = C0.shared_data.offsets.length
  rw [h.2.2.2.2.1]

theorem tryIntermediate_updTyped {C0 cur : ColumnObject} (h : tryIntermediate C0 cur)
    (p : String) (v : Value) :
    tryIntermediate C0
      { cur with typed_paths := updAssoc cur.typed_paths p (fun c => c.insertVal v) } := by
  obtain ⟨h1, h2, h3, h4, h5, h6, h7, h8⟩ := h
  refine ⟨?_, h2, h3, h4, h5, h6, h7, h8⟩
  unfold updAssoc
  rw [List.forall₂_map_right_iff]
  refine h1.imp ?_
  intro a b hr
  rcases hr with ⟨hk, hok, hdd, t, ht⟩
  by_cases hb : b.1 = p
  · have hfb : (if b.1 = p then (b.1, b.2.insertVal v) else b) = (b.1, b.2.insertVal v) :=
      if_pos hb
    rw [hfb]
    refine ⟨hk, hok, hdd, t ++ [v], ?_⟩
    show b.2.data ++ [v] = _
    rw [ht, List.append_assoc]
  · have hfb : (if b.1 = p then (b.1, b.2.insertVal v) else b) = b := if_neg hb
    rw [hfb]
    exact ⟨hk, hok, hdd, t, ht⟩

theorem tryIntermediate_updDyn {C0 cur : ColumnObject} (h : tryIntermediate C0 cur)
    (p : String) (v : Value) :
    tryIntermediate C0
      { cur with dynamic_paths := updAssoc cur.dynamic_paths p (fun c => c.insertVal v) } := by
  obtain ⟨h1, h2, h3, h4, h5, h6, h7, h8⟩ := h
  rcases h2 with ⟨pre, extra, hsplit, hrel, hextra⟩
  refine ⟨h1, ?_, h3, h4, h5, h6, h7, h8⟩
  refine ⟨updAssoc pre p (fun c => c.insertVal v), updAssoc extra p (fun c => c.insertVal v), ?_, ?_, ?_⟩
  · show updAssoc cur.dynamic_paths p (fun c => c.insertVal v)
        = updAssoc pre p (fun c => c.insertVal v) ++ updAssoc extra p (fun c => c.insertVal v)
    unfold updAssoc
    rw [hsplit, List.map_append]
  · unfold updAssoc
    rw [List.forall₂_map_right_iff]
    refine hrel.imp ?_
    intro a b hr
    rcases hr with ⟨hk, hok, hdd, t, ht⟩
    by_cases hb : b.1 = p
    · have hfb : (if b.1 = p then (b.1, b.2.insertVal v) else b) = (b.1, b.2.insertVal v) :=
        if_pos hb
      rw [hfb]
      refine ⟨hk, hok, hdd, t ++ [v], ?_⟩
      show b.2.data ++ [v] = _
      rw [ht, List.append_assoc]
    · have hfb : (if b.1 = p then (b.1, b.2.insertVal v) else b) = b := if_neg hb
      rw [hfb]
      exact ⟨hk, hok, hdd, t, ht⟩
  · intro pc hpc
    unfold updAssoc at hpc
    rcases List.mem_map.mp hpc with ⟨q, hq, hqe⟩
    rcases hextra q hq with ⟨t, ht⟩
    rw [← hqe]
    by_cases hb : q.1 = p
    · have hfb : (if q.1 = p then (q.1, q.2.insertVal v) else q) = (q.1, q.2.insertVal v) :=
        if_pos hb
      rw [hfb]
      refine ⟨t ++ [v], ?_⟩
      show q.2.data ++ [v] = _
      rw [ht, List.append_assoc]
    · have hfb : (if q.1 = p then (q.1, q.2.insertVal v) else q) = q := if_neg hb
      rw [hfb]
      exact ⟨t, ht⟩

theorem tryIntermediate_appendShared {C0 cur : ColumnObject} (h : tryIntermediate C0 cur)
    (p : String) (v : Value) :
    tryIntermediate C0 { cur with shared_data := cur.shared_data.appendEntry p v } := by
  obtain ⟨h1, h2, h3, h4, h5, h6, h7, h8⟩ := h
  rcases h3 with ⟨t3, ht3⟩
  rcases h4 with ⟨t4, ht4⟩
  exact ⟨h1, h2, ⟨t3 ++ [p], by simp [SharedData.appendEntry, ht3]⟩,
    ⟨t4 ++ [v], by simp [SharedData.appendEntry, ht4]⟩,
    by simpa [SharedData.appendEntry] using h5, h6, h7, h8⟩

theorem tryIntermediate_newDyn {C0 cur : ColumnObject} (h : tryIntermediate C0 cur)
    (p : String) (c : SubColumn)
    (hc : ∃ t, c.data = List.replicate C0.size Value.null ++ t) :
    tryIntermediate C0 { cur with dynamic_paths := cur.dynamic_paths ++ [(p, c)] } := by
  obtain ⟨h1, h2, h3, h4, h5, h6, h7, h8⟩ := h
  rcases h2 with ⟨pre, extra, hsplit, hrel, hextra⟩
  refine ⟨h1, ⟨pre, extra ++ [(p, c)], ?_, hrel, ?_⟩, h3, h4, h5, h6, h7, h8⟩
  · show cur.dynamic_paths ++ [(p, c)] = _
    rw [hsplit, List.append_assoc]
  · intro pc hpc
    rcases List.mem_append.mp hpc with hpc | hpc
    · exact hextra pc hpc
    · rw [List.mem_singleton.mp hpc]
      exact hc

/-- Every state the tryInsert loop surfaces on failure is an intermediate
state reachable from the pre-call state. -/
theorem tryInsertLoop_error_rel (dynOk : Value → Bool) :
    ∀ (entries : List (String × Value)) (cur C0 : ColumnObject),
      tryIntermediate C0 cur →
      ∀ e, tryInsertLoop dynOk cur entries = Except.error e → tryIntermediate C0 e := by
  intro entries
  induction entries with
  | nil =>
    intro cur C0 _ e he
    simp [tryInsertLoop] at he
  | cons pv rest ih =>
    intro cur C0 hrel e he
    rw [tryInsertLoop] at he
    cases hlt : cur.typed_paths.lookup pv.1 with
    | some c =>
      rw [hlt] at he
      simp only at he
      by_cases hok : c.ok pv.2
      · rw [if_pos hok] at he
        exact ih _ C0 (tryIntermediate_updTyped hrel pv.1 pv.2) e he
      · rw [if_neg hok] at he
        have : cur = e := by
          simpa using he
        rw [← this]
        exact hrel
    | none =>
      rw [hlt] at he
      simp only at he
      cases hld : cur.dynamic_paths.lookup pv.1 with
      | some c =>
        rw [hld] at he
        simp only at he
        by_cases hok : c.ok pv.2
        · rw [if_pos hok] at he
          exact ih _ C0 (tryIntermediate_updDyn hrel pv.1 pv.2) e he
        · rw [if_neg hok] at he
          have : cur = e := by
            simpa using he
          rw [← this]
          exact hrel
      | none =>
        rw [hld] at he
        simp only at he
        by_cases hcap : cur.dynamic_paths.length = cur.max_dynamic_paths
        · rw [if_pos hcap] at he
          by_cases hnull : pv.2 = Value.null
          · rw [if_pos hnull] at he
            exact ih _ C0 hrel e he
          · rw [if_neg hnull] at he
            exact ih _ C0 (tryIntermediate_appendShared hrel pv.1 pv.2) e he
        · rw [if_neg hcap] at he
          by_cases hdyn : dynOk pv.2
          · rw [if_pos hdyn] at he
            refine ih _ C0 (tryIntermediate_newDyn hrel pv.1 _ ?_) e he
            refine ⟨[pv.2], ?_⟩
            rw [tryIntermediate_size hrel]
            simp [freshDynamic, SubColumn.insertVal]
          · rw [if_neg hdyn] at he
            have hee : { cur with dynamic_paths :=
                cur.dynamic_paths ++ [(pv.1, freshDynamic dynOk cur.size)] } = e := by
              simpa using he
            rw [← hee]
            refine tryIntermediate_newDyn hrel pv.1 _ ?_
            refine ⟨[], ?_⟩
            rw [tryIntermediate_size hrel]
            simp [freshDynamic]

theorem forall₂_extCol_popBack {l0 l : List (String × SubColumn)} {n : Nat}
    (h : List.Forall₂ extCol l0 l) (hlen : ∀ pc ∈ l0, (pc.2 : SubColumn).data.length = n) :
    l.map (fun pc => (pc.1, pc.2.popBackTo n)) = l0 := by
  induction h with
  | nil => rfl
  | @cons a b l0t lt hr hrest ih =>
    rcases hr with ⟨hk, hok, hdd, t, ht⟩
    have hlen0 : (a.2 : SubColumn).data.length = n := hlen a (List.mem_cons_self ..)
    simp only [List.map_cons]
    rw [ih (fun pc hpc => hlen pc (List.mem_cons_of_mem _ hpc))]
    have hcol : b.2.popBackTo n = a.2 := by
      unfold SubColumn.popBackTo
      rw [ht, ← hlen0, List.take_left]
      rw [hok, hdd]
    rw [hk, hcol]

/-- The restore protocol applied to any loop-intermediate state recovers
the pre-call typed columns and shared data exactly; dynamic paths recover
to the pre-call ones plus possibly leftover fresh all-null columns. -/
theorem restoreSizes_of_intermediate {C0 e : ColumnObject} (hwf : WF C0)
    (hrel : tryIntermediate C0 e) :
    (restoreSizes e C0.size C0.shared_data.paths.length C0.shared_data.values.length).typed_paths
        = C0.typed_paths ∧
    (restoreSizes e C0.size C0.shared_data.paths.length C0.shared_data.values.length).shared_data
        = C0.shared_data ∧
    (∃ extra, (restoreSizes e C0.size C0.shared_data.paths.length C0.shared_data.values.length).dynamic_paths
        = C0.dynamic_paths ++ extra ∧
      ∀ pc ∈ extra, (pc.2 : SubColumn).data = List.replicate C0.size Value.null) ∧
    (restoreSizes e C0.size C0.shared_data.paths.length C0.shared_data.values.length).max_dynamic_paths
        = C0.max_dynamic_paths ∧
    (restoreSizes e C0.size C0.shared_data.paths.length C0.shared_data.values.length).max_dynamic_types
        = C0.max_dynamic_types ∧
    (restoreSizes e C0.size C0.shared_data.paths.length C0.shared_data.values.length).statistics
        = C0.statistics := by
  obtain ⟨h1, h2, h3, h4, h5, h6, h7, h8⟩ := hrel
  rcases h2 with ⟨pre, extra, hsplit, hrelD, hextra⟩
  rcases h3 with ⟨t3, ht3⟩
  rcases h4 with ⟨t4, ht4⟩
  refine ⟨?_, ?_, ?_, h6, h7, h8⟩
  · show e.typed_paths.map (fun pc => (pc.1, pc.2.popBackTo C0.size)) = _
    exact forall₂_extCol_popBack h1 hwf.typed_len
  · show SharedData.mk (e.shared_data.paths.take C0.shared_data.paths.length)
        (e.shared_data.values.take C0.shared_data.values.length) e.shared_data.offsets
      = C0.shared_data
    rw [ht3, ht4, h5, List.take_left, List.take_left]
  · refine ⟨extra.map (fun pc => (pc.1, pc.2.popBackTo C0.size)), ?_, ?_⟩
    · show e.dynamic_paths.map (fun pc => (pc.1, pc.2.popBackTo C0.size)) = _
      rw [hsplit, List.map_append, forall₂_extCol_popBack hrelD hwf.dyn_len]
    · intro pc hpc
      rcases List.mem_map.mp hpc with ⟨q, hq, hqe⟩
      rcases hextra q hq with ⟨t, ht⟩
      rw [← hqe]
      show List.take C0.size q.2.data = _
      rw [ht, List.take_append_of_le_length (by simp), List.take_replicate]
      simp

/-- Claim C1 counterexample: tryInsert returns false yet the dynamic-path
set has grown.  The row first adds the new dynamic path a (its fallible
insert succeeds), then fails on the typed path b whose column rejects the
value; restore_sizes pops rows but leaves the new dynamic path in the map,
so the column is observably changed. -/
theorem c1_tryInsert_leaves_new_dynamic_path_cex :
    (exCRollback.tryInsert okAll
        (Field.object [("a", Value.int 5), ("b", Value.str "bad")])).1 = false ∧
      ((exCRollback.tryInsert okAll
          (Field.object [("a", Value.int 5), ("b", Value.str "bad")])).2.dynamic_paths.map
            Prod.fst
        ≠ exCRollback.dynamic_paths.map Prod.fst) := by
  constructor
  · decide
  · decide

/-- Claim C1 (amended): when tryInsert returns false, the pre-call typed
columns, the whole shared data (paths, values, offsets) and all caps and
statistics are exactly as before the call and no partial row remains; the
pre-call dynamic columns are likewise restored, but a dynamic path created
during the failed call may remain in the map as an all-null column of the
pre-call length, so the dynamic-path key set can grow. -/
theorem c1_tryInsert_rollback (dynOk : Value → Bool) (C : ColumnObject) (x : Field)
    (hwf : WF C) (hfail : (C.tryInsert dynOk x).1 = false) :
    (C.tryInsert dynOk x).2.typed_paths = C.typed_paths ∧
    (C.tryInsert dynOk x).2.shared_data = C.shared_data ∧
    (∃ extra, (C.tryInsert dynOk x).2.dynamic_paths = C.dynamic_paths ++ extra ∧
      ∀ pc ∈ extra, (pc.2 : SubColumn).data = List.replicate C.size Value.null) ∧
    (C.tryInsert dynOk x).2.max_dynamic_paths = C.max_dynamic_paths ∧
    (C.tryInsert dynOk x).2.max_dynamic_types = C.max_dynamic_types ∧
    (C.tryInsert dynOk x).2.statistics = C.statistics := by
  match x with
  | Field.scalar v =>
    refine ⟨rfl, rfl, ⟨[], ?_, by simp⟩, rfl, rfl, rfl⟩
    show C.dynamic_paths = C.dynamic_paths ++ []
    simp
  | Field.object entries =>
    cases heq : tryInsertLoop dynOk C entries with
    | ok cur =>
      exfalso
      have htrue : (C.tryInsert dynOk (Field.object entries)).1 = true := by
        show (match tryInsertLoop dynOk C entries with
          | Except.error e2 =>
            (false, restoreSizes e2 C.size C.shared_data.paths.length C.shared_data.values.length)
          | Except.ok c2 => (true, finishRow c2 C.size)).1 = true
        rw [heq]
      rw [htrue] at hfail
      simp at hfail
    | error e =>
      have hrel := tryInsertLoop_error_rel dynOk entries C C (tryIntermediate_refl C) e heq
      have hres : (C.tryInsert dynOk (Field.object entries)).2
          = restoreSizes e C.size C.shared_data.paths.length C.shared_data.values.length := by
        show (match tryInsertLoop dynOk C entries with
          | Except.error e2 =>
            (false, restoreSizes e2 C.size C.shared_data.paths.length C.shared_data.values.length)
          | Except.ok c2 => (true, finishRow c2 C.size)).2 = _
        rw [heq]
      rw [hres]
      exact restoreSizes_of_intermediate hwf hrel

/-- Witness for C1 (amended) at the concrete rollback column. -/
theorem c1_tryInsert_rollback_witness :
    WF exCRollback ∧
      (exCRollback.tryInsert okAll
          (Field.object [("a", Value.int 5), ("b", Value.str "bad")])).2.shared_data
        = exCRollback.shared_data := by
  have hwf : WF exCRollback :=
    ⟨by decide, by decide, by decide, by decide, by decide, by decide, by decide, by decide⟩
  exact ⟨hwf, (c1_tryInsert_rollback okAll exCRollback
    (Field.object [("a", Value.int 5), ("b", Value.str "bad")]) hwf (by decide)).2.1⟩

/-! ### Claim C6 infrastructure -/

instance : IsTotal (Nat × String) pairGe := by
  constructor
  intro a b
  rcases Nat.lt_trichotomy a.1 b.1 with h | h | h
  · exact Or.inr (Or.inl (Or.inl h))
  · by_cases hs : strLt a.2 b.2
    · exact Or.inr (Or.inl (Or.inr ⟨h, hs⟩))
    · rcases strLe_or_eq_of_not_lt hs with h2 | h2
      · exact Or.inl (Or.inl (Or.inr ⟨h.symm, h2⟩))
      · refine Or.inl (Or.inr ?_)
        have : a = (a.1, a.2) := rfl
        rw [this, h, h2]
  · exact Or.inl (Or.inl (Or.inl h))

theorem pairGt_trans {a b c : Nat × String} (h1 : pairGt a b) (h2 : pairGt b c) : pairGt a c := by
  rcases h1 with h1 | ⟨h1e, h1s⟩
  · rcases h2 with h2 | ⟨h2e, h2s⟩
    · exact Or.inl (Nat.lt_trans h2 h1)
    · exact Or.inl (by omega)
  · rcases h2 with h2 | ⟨h2e, h2s⟩
    · exact Or.inl (by omega)
    · exact Or.inr (⟨by omega, strLt_trans h2s h1s⟩)

instance : IsTrans (Nat × String) pairGe := by
  constructor
  intro a b c h1 h2
  rcases h1 with h1 | h1
  · rcases h2 with h2 | h2
    · exact Or.inl (pairGt_trans h1 h2)
    · rw [← h2]
      exact Or.inl h1
  · rw [h1]
    exact h2

theorem map_fst_ite {β : Type} (l : List (String × β)) (p : String) (f : β → β) :
    (l.map (fun q => if q.1 = p then (q.1, f q.2) else q)).map Prod.fst = l.map Prod.fst := by
  induction l with
  | nil => rfl
  | cons q rest ih =>
    simp only [List.map_cons]
    by_cases h : q.1 = p
    · simpa [h] using ih
    · simpa [h] using ih

theorem map_fst_addTally_upd (acc : List (String × Nat)) (p : String) (s : Nat) :
    ((acc.map (fun q => if q.1 = p then (q.1, q.2 + s) else q)).map Prod.fst)
      = acc.map Prod.fst := by
  induction acc with
  | nil => rfl
  | cons q rest ih =>
    simp only [List.map_cons]
    by_cases h : q.1 = p
    · simpa [h] using ih
    · simpa [h] using ih

theorem addTally_nodup {acc : List (String × Nat)} (h : (acc.map Prod.fst).Nodup)
    (p : String) (s : Nat) : ((addTally acc p s).map Prod.fst).Nodup := by
  unfold addTally
  by_cases hl : (acc.lookup p).isSome
  · rw [if_pos hl, map_fst_addTally_upd]
    exact h
  · rw [if_neg hl]
    have hpn : p ∉ acc.map Prod.fst := by
      intro hmem
      exact hl ((lookup_isSome_iff ..).mpr hmem)
    rw [List.map_append]
    simp only [List.map_cons, List.map_nil]
    rw [List.nodup_append]
    refine ⟨h, List.nodup_singleton _, ?_⟩
    intro a ha hb
    simp only [List.mem_singleton] at hb
    rw [hb] at ha
    exact hpn ha

theorem tallyOne_nodup {acc : List (String × Nat)} (h : (acc.map Prod.fst).Nodup)
    (src : ColumnObject) : ((tallyOne acc src).map Prod.fst).Nodup := by
  unfold tallyOne
  generalize src.dynamic_paths = pcs
  induction pcs generalizing acc with
  | nil => exact h
  | cons pc rest ih => exact ih (addTally_nodup h ..)

theorem tally_nodup (sources : List ColumnObject) :
    ((sources.foldl tallyOne []).map Prod.fst).Nodup := by
  have hgen : ∀ (srcs : List ColumnObject) (acc : List (String × Nat)),
      (acc.map Prod.fst).Nodup → ((srcs.foldl tallyOne acc).map Prod.fst).Nodup := by
    intro srcs
    induction srcs with
    | nil => exact fun _ h => h
    | cons src rest ih => exact fun acc h => ih _ (tallyOne_nodup h src)
  exact hgen sources [] (by simp)

theorem lookup_of_mem_nodup {β : Type} {l : List (String × β)}
    (hnd : (l.map Prod.fst).Nodup) {p : String} {v : β} (h : (p, v) ∈ l) :
    l.lookup p = some v := by
  induction l with
  | nil => simp at h
  | cons q rest ih =>
    simp only [List.map_cons, List.nodup_cons] at hnd
    rcases List.mem_cons.mp h with h1 | h1
    · rw [← h1]
      simp [List.lookup]
    · by_cases hk : p = q.1
      · exfalso
        apply hnd.1
        rw [← hk]
        exact List.mem_map_of_mem Prod.fst h1
      · have hb : (p == q.1) = false := by simpa using hk
        have : List.lookup p (q :: rest) = List.lookup p rest := by
          rcases q with ⟨q1, q2⟩
          simp [List.lookup, hb]
        rw [this]
        exact ih hnd.2 h1

theorem pairwise_take_drop {α : Type} {r : α → α → Prop} {l : List α} (h : l.Pairwise r)
    (k : Nat) : ∀ a ∈ l.take k, ∀ b ∈ l.drop k, r a b := by
  have h2 := h
  rw [← List.take_append_drop k l] at h2
  exact (List.pairwise_append.mp h2).2.2

/-- Claim C6: on an empty column, takeDynamicStructureFromSourceColumns
keeps every tallied source dynamic path when their number is within
max_dynamic_paths, and otherwise keeps exactly max_dynamic_paths paths all
drawn from the tally, with every kept path's total non-null tally at least
every dropped path's tally; statistics.source becomes MERGE and
statistics.data maps exactly the kept paths to their tallies. -/
theorem c6_take_dynamic_structure (C : ColumnObject) (sources : List ColumnObject)
    (hempty : C.size = 0) :
    ∃ C2, C.takeDynamicStructureFromSourceColumns sources = some C2 ∧
      ((sources.foldl tallyOne []).length ≤ C.max_dynamic_paths →
        C2.dynamic_paths.map Prod.fst = (sources.foldl tallyOne []).map Prod.fst) ∧
      ((sources.foldl tallyOne []).length > C.max_dynamic_paths →
        C2.dynamic_paths.length = C.max_dynamic_paths ∧
        (∀ p ∈ C2.dynamic_paths.map Prod.fst, p ∈ (sources.foldl tallyOne []).map Prod.fst) ∧
        (C2.dynamic_paths.map Prod.fst).Nodup ∧
        (∀ p ∈ C2.dynamic_paths.map Prod.fst, ∀ q ∈ (sources.foldl tallyOne []).map Prod.fst,
          q ∉ C2.dynamic_paths.map Prod.fst →
          ((sources.foldl tallyOne []).lookup q).getD 0
            ≤ ((sources.foldl tallyOne []).lookup p).getD 0)) ∧
      C2.statistics.source = StatSource.MERGE ∧
      C2.statistics.data = C2.dynamic_paths.map
        (fun pc => (pc.1, ((sources.foldl tallyOne []).lookup pc.1).getD 0)) := by
  have hne : ¬ C.size ≠ 0 := by simpa using hempty
  refine ⟨_, by rw [ColumnObject.takeDynamicStructureFromSourceColumns, if_neg hne], ?_, ?_, ?_, ?_⟩
  · intro hle
    have hnotgt : ¬ ((sources.foldl tallyOne []).length > C.max_dynamic_paths) := by omega
    simp only [hnotgt, if_false, List.map_map]
    rfl
  · intro hgt
    simp only [hgt, if_true]
    set t := sources.foldl tallyOne [] with ht
    set srt := List.insertionSort pairGe (t.map (fun pn => (pn.2, pn.1))) with hsrt
    have hnd : (t.map Prod.fst).Nodup := tally_nodup sources
    have hperm : List.Perm srt (t.map (fun pn => (pn.2, pn.1))) := List.perm_insertionSort ..
    have hsortlen : srt.length = t.length := by
      rw [hperm.length_eq, List.length_map]
    have hsnd_eq : srt.map Prod.snd ≠ [] ∨ True := Or.inr trivial
    have hsnd_nodup : (srt.map Prod.snd).Nodup := by
      refine (hperm.map Prod.snd).nodup_iff.mpr ?_
      rw [List.map_map]
      have hcomp : (Prod.snd ∘ fun pn : String × Nat => (pn.2, pn.1)) = Prod.fst := rfl
      rw [hcomp]
      exact hnd
    have hsorted : srt.Pairwise pairGe := List.sorted_insertionSort ..
    have hmemsort : ∀ sp : Nat × String, sp ∈ srt ↔ (sp.2, sp.1) ∈ t := by
      intro sp
      rw [hperm.mem_iff, List.mem_map]
      constructor
      · rintro ⟨pn, hpn, hpe⟩
        have h1 : sp.2 = pn.1 := by rw [← hpe]
        have h2 : sp.1 = pn.2 := by rw [← hpe]
        rw [h1, h2]
        exact hpn
      · intro hmem
        exact ⟨(sp.2, sp.1), hmem, rfl⟩
    have hkeys : (((srt.take C.max_dynamic_paths).map (fun sp => (sp.2, sp.1))).map
        (fun pn : String × Nat => (pn.1, newDynamicColumn))).map Prod.fst
        = (srt.take C.max_dynamic_paths).map Prod.snd := by
      rw [List.map_map, List.map_map]
      rfl
    refine ⟨?_, ?_, ?_, ?_⟩
    · simp only [List.length_map, List.length_take, hsortlen]
      omega
    · intro p hp
      rw [hkeys] at hp
      rcases List.mem_map.mp hp with ⟨sp, hsp, hspe⟩
      have hsp2 : sp ∈ srt := List.mem_of_mem_take hsp
      have hmem := (hmemsort sp).mp hsp2
      rw [← hspe]
      exact List.mem_map_of_mem Prod.fst hmem
    · rw [hkeys, List.map_take]
      exact hsnd_nodup.sublist (List.take_sublist ..)
    · intro p hp q hq hqnot
      rw [hkeys] at hp hqnot
      rcases List.mem_map.mp hp with ⟨sp, hsp, hspe⟩
      have hspmem : (sp.2, sp.1) ∈ t := (hmemsort sp).mp (List.mem_of_mem_take hsp)
      have hlookp : t.lookup p = some sp.1 := by
        rw [← hspe]
        exact lookup_of_mem_nodup hnd hspmem
      rcases List.mem_map.mp hq with ⟨qv, hqv, hqve⟩
      have hlookq : t.lookup q = some qv.2 := by
        rw [← hqve]
        rcases qv with ⟨q1, q2⟩
        exact lookup_of_mem_nodup hnd hqv
      have hqsrt : (qv.2, q) ∈ srt := by
        rw [hmemsort]
        show (q, qv.2) ∈ t
        rw [← hqve]
        rcases qv with ⟨q1, q2⟩
        exact hqv
      have hqdrop : (qv.2, q) ∈ srt.drop C.max_dynamic_paths := by
        have := (List.take_append_drop C.max_dynamic_paths srt).symm
        rw [this] at hqsrt
        rcases List.mem_append.mp hqsrt with hin | hin
        · exfalso
          apply hqnot
          have : q = ((qv.2, q) : Nat × String).2 := rfl
          rw [this]
          exact List.mem_map_of_mem Prod.snd hin
        · exact hin
      have hge := pairwise_take_drop hsorted C.max_dynamic_paths sp hsp (qv.2, q) hqdrop
      rw [hlookp, hlookq]
      rcases hge with hge | hge
      · rcases hge with hge | hge
        · simp only [Option.getD_some]
          exact Nat.le_of_lt hge
        · simp only [Option.getD_some]
          omega
      · have : qv.2 = sp.1 := by rw [hge]
        simp [this]
  · simp
  · simp only [List.map_map]
    rfl

/-- Witness for C6: an empty cap-1 column taking structure from one source
with two dynamic paths of equal tallies; the statistics source becomes
MERGE. -/
theorem c6_take_dynamic_structure_witness :
    exEmpty1.size = 0 ∧
      ∃ C2, exEmpty1.takeDynamicStructureFromSourceColumns [exC1] = some C2 ∧
        C2.statistics.source = StatSource.MERGE := by
  refine ⟨by decide, ?_⟩
  rcases c6_take_dynamic_structure exEmpty1 [exC1] (by decide) with ⟨C2, heq, _, _, hsrc, _⟩
  exact ⟨C2, heq, hsrc⟩

/-! ### Claim C4 infrastructure: the sorted merge -/

theorem spillEntry_key {src : ColumnObject} {row : Nat} {s : String} {pv : String × Value}
    (h : spillEntry src row s = some pv) : pv.1 = s := by
  unfold spillEntry at h
  cases hl : src.dynamic_paths.lookup s with
  | none =>
    rw [hl] at h
    simp at h
  | some c =>
    rw [hl] at h
    simp only at h
    by_cases hn : c.isNullAt row
    · rw [if_pos hn] at h
      simp at h
    · rw [if_neg hn] at h
      simp only [Option.some.injEq] at h
      rw [← h]

theorem filterMap_spill_keys (src : ColumnObject) (row : Nat) (l : List String) :
    (l.filterMap (spillEntry src row)).map Prod.fst
      = l.filter (fun s => (spillEntry src row s).isSome) := by
  induction l with
  | nil => rfl
  | cons a rest ih =>
    cases h : spillEntry src row a with
    | none => simp [List.filterMap_cons, List.filter_cons, h, ih]
    | some pv =>
      simp only [List.filterMap_cons, h, List.filter_cons, List.map_cons, Option.isSome_some]
      rw [spillEntry_key h, ih]
      simp

theorem sorted_dropWhile_not_lt {spill : List String} (hs : spill.Pairwise strLt) (p : String) :
    ∀ s ∈ spill.dropWhile (fun s => decide (strLt s p)), ¬ strLt s p := by
  induction spill with
  | nil => simp
  | cons a rest ih =>
    by_cases ha : strLt a p
    · rw [List.dropWhile_cons_of_pos (by simpa using ha)]
      exact ih hs.of_cons
    · rw [List.dropWhile_cons_of_neg (by simpa using ha)]
      intro s hsmem
      rcases List.mem_cons.mp hsmem with h1 | h1
      · rw [h1]
        exact ha
      · intro hsp
        apply ha
        exact strLt_trans ((List.pairwise_cons.mp hs).1 s h1) hsp

theorem mergedRow_keys_sub (src : ColumnObject) (dynMem : String → Bool) (row : Nat) :
    ∀ (entries : List (String × Value)) (spill : List String) (q : String),
      q ∈ (mergedRow src dynMem row entries spill).map Prod.fst →
      q ∈ entries.map Prod.fst ∨ q ∈ spill := by
  intro entries
  induction entries with
  | nil =>
    intro spill q hq
    rw [mergedRow, filterMap_spill_keys] at hq
    exact Or.inr (List.mem_of_mem_filter hq)
  | cons pv rest ih =>
    intro spill q hq
    rw [mergedRow] at hq
    by_cases hd : dynMem pv.1
    · rw [if_pos hd] at hq
      rcases ih spill q hq with h | h
      · exact Or.inl (by rw [List.map_cons]; exact List.mem_cons_of_mem _ h)
      · exact Or.inr h
    · rw [if_neg hd] at hq
      rw [List.map_append] at hq
      rcases List.mem_append.mp hq with h | h
      · rw [filterMap_spill_keys] at h
        exact Or.inr ((List.takeWhile_sublist ..).mem (List.mem_of_mem_filter h))
      · rw [List.map_cons] at h
        rcases List.mem_cons.mp h with h1 | h1
        · exact Or.inl (by rw [List.map_cons, h1]; exact List.mem_cons_self ..)
        · rcases ih _ q h1 with h2 | h2
          · exact Or.inl (by rw [List.map_cons]; exact List.mem_cons_of_mem _ h2)
          · exact Or.inr (List.dropWhile_sublist .. |>.mem h2)

theorem mergedRow_sorted (src : ColumnObject) (dynMem : String → Bool) (row : Nat) :
    ∀ (entries : List (String × Value)) (spill : List String),
      ((entries.map Prod.fst).Pairwise strLt) →
      spill.Pairwise strLt →
      (∀ s ∈ spill, ∀ pv ∈ entries, s ≠ pv.1) →
      ((mergedRow src dynMem row entries spill).map Prod.fst).Pairwise strLt := by
  intro entries
  induction entries with
  | nil =>
    intro spill _ hsp _
    rw [mergedRow, filterMap_spill_keys]
    exact hsp.filter _
  | cons pv rest ih =>
    intro spill hent hsp hdisj
    rw [mergedRow]
    by_cases hd : dynMem pv.1
    · rw [if_pos hd]
      refine ih spill ?_ hsp ?_
      · rw [List.map_cons] at hent
        exact hent.of_cons
      · intro s hs pv2 hpv2
        exact hdisj s hs pv2 (List.mem_cons_of_mem _ hpv2)
    · rw [if_neg hd, List.map_append, List.map_cons]
      rw [List.pairwise_append]
      have htw : ∀ a ∈ (spill.takeWhile (fun s => decide (strLt s pv.1))), strLt a pv.1 := by
        intro a ha
        have := List.mem_takeWhile_imp ha
        simpa using this
      have hA : ((spill.takeWhile (fun s => decide (strLt s pv.1))).filterMap
          (spillEntry src row)).map Prod.fst
          = (spill.takeWhile (fun s => decide (strLt s pv.1))).filter
              (fun s => (spillEntry src row s).isSome) := filterMap_spill_keys ..
      have hrest_gt : ∀ b ∈ rest.map Prod.fst, strLt pv.1 b := by
        rw [List.map_cons] at hent
        exact fun b hb => (List.pairwise_cons.mp hent).1 b hb
      have hdrop_gt : ∀ s ∈ spill.dropWhile (fun s => decide (strLt s pv.1)), strLt pv.1 s := by
        intro s hs
        have hnot := sorted_dropWhile_not_lt hsp pv.1 s hs
        rcases strLe_or_eq_of_not_lt hnot with h1 | h1
        · exact h1
        · exfalso
          have hsmem : s ∈ spill := (List.dropWhile_sublist ..).mem hs
          exact hdisj s hsmem pv (List.mem_cons_self ..) (h1.symm ▸ rfl)
      have hM_gt : ∀ b ∈ (mergedRow src dynMem row rest
          (spill.dropWhile (fun s => decide (strLt s pv.1)))).map Prod.fst, strLt pv.1 b := by
        intro b hb
        rcases mergedRow_keys_sub src dynMem row rest _ b hb with h1 | h1
        · exact hrest_gt b h1
        · exact hdrop_gt b h1
      refine ⟨?_, ?_, ?_⟩
      · rw [hA]
        exact (hsp.sublist (List.takeWhile_sublist ..)).filter _
      · rw [List.pairwise_cons]
        refine ⟨hM_gt, ?_⟩
        refine ih _ ?_ ?_ ?_
        · rw [List.map_cons] at hent
          exact hent.of_cons
        · exact hsp.sublist (List.dropWhile_sublist ..)
        · intro s hs pv2 hpv2
          exact hdisj s ((List.dropWhile_sublist ..).mem hs) pv2 (List.mem_cons_of_mem _ hpv2)
      · intro a ha b hb
        rw [hA] at ha
        have ha2 : strLt a pv.1 := htw a (List.mem_of_mem_filter ha)
        rcases List.mem_cons.mp hb with h1 | h1
        · rw [h1]
          exact ha2
        · exact strLt_trans ha2 (hM_gt b h1)

theorem pairwise_strLt_of_sorted_nodup {l : List String} (hs : l.Pairwise strLe)
    (hnd : l.Nodup) : l.Pairwise strLt := by
  have := hs.and hnd
  exact this.imp (fun h => strLt_of_strLe_of_ne h.1 h.2)

theorem foldl_spill_append (src : ColumnObject) (row : Nat) (l : List String) :
    ∀ sd : SharedData,
      l.foldl (fun sd2 s => sharedAppendOpt sd2 (spillEntry src row s)) sd
        = SharedData.mk (sd.paths ++ (l.filterMap (spillEntry src row)).map Prod.fst)
            (sd.values ++ (l.filterMap (spillEntry src row)).map Prod.snd) sd.offsets := by
  induction l with
  | nil =>
    intro sd
    simp
  | cons a rest ih =>
    intro sd
    rw [List.foldl_cons]
    cases h : spillEntry src row a with
    | none =>
      rw [ih]
      simp [List.filterMap_cons, h, sharedAppendOpt]
    | some pv =>
      rw [ih]
      simp [List.filterMap_cons, h, sharedAppendOpt, SharedData.appendEntry]

theorem rowLoop_char (src : ColumnObject) (row : Nat) :
    ∀ (entries : List (String × Value)) (spill : List String) (cur : ColumnObject),
      (rowLoop src row cur entries spill).shared_data
        = SharedData.mk
            (cur.shared_data.paths ++ (mergedRow src
              (fun p => decide (p ∈ cur.dynamic_paths.map Prod.fst)) row entries spill).map Prod.fst)
            (cur.shared_data.values ++ (mergedRow src
              (fun p => decide (p ∈ cur.dynamic_paths.map Prod.fst)) row entries spill).map Prod.snd)
            cur.shared_data.offsets ∧
      (rowLoop src row cur entries spill).dynamic_paths.map Prod.fst
        = cur.dynamic_paths.map Prod.fst ∧
      (rowLoop src row cur entries spill).typed_paths = cur.typed_paths ∧
      (rowLoop src row cur entries spill).max_dynamic_paths = cur.max_dynamic_paths ∧
      (rowLoop src row cur entries spill).statistics = cur.statistics := by
  intro entries
  induction entries with
  | nil =>
    intro spill cur
    refine ⟨?_, rfl, rfl, rfl, rfl⟩
    show (spill.foldl (fun sd s => sharedAppendOpt sd (spillEntry src row s)) cur.shared_data) = _
    rw [foldl_spill_append]
    rfl
  | cons pv rest ih =>
    intro spill cur
    rw [rowLoop]
    by_cases hd : (cur.dynamic_paths.lookup pv.1).isSome
    · rw [if_pos hd]
      have hmem : pv.1 ∈ cur.dynamic_paths.map Prod.fst := (lookup_isSome_iff ..).mp hd
      obtain ⟨i1, i2, i3, i4, i5⟩ :=
        ih spill { cur with dynamic_paths := updAssoc cur.dynamic_paths pv.1 (fun c => c.insertVal pv.2) }
      simp only [updAssoc_keys] at i1 i2
      refine ⟨?_, i2, i3, i4, i5⟩
      rw [i1]
      show SharedData.mk (cur.shared_data.paths ++ _) (cur.shared_data.values ++ _)
          cur.shared_data.offsets = _
      have hmr : mergedRow src (fun p => decide (p ∈ cur.dynamic_paths.map Prod.fst)) row
          (pv :: rest) spill
          = mergedRow src (fun p => decide (p ∈ cur.dynamic_paths.map Prod.fst)) row rest spill := by
        rw [mergedRow, if_pos (by simpa using hmem)]
      rw [hmr]
    · rw [if_neg hd]
      have hmem : pv.1 ∉ cur.dynamic_paths.map Prod.fst := by
        intro hm
        exact hd ((lookup_isSome_iff ..).mpr hm)
      obtain ⟨i1, i2, i3, i4, i5⟩ := ih (spill.dropWhile (fun s => decide (strLt s pv.1)))
        { cur with shared_data := SharedData.appendEntry ((spill.takeWhile (fun s => decide (strLt s pv.1))).foldl (fun sd s => sharedAppendOpt sd (spillEntry src row s)) cur.shared_data) pv.1 pv.2 }
      refine ⟨?_, by simpa using i2, by simpa using i3, by simpa using i4, by simpa using i5⟩
      rw [i1]
      simp only [foldl_spill_append, SharedData.appendEntry]
      have hmr : mergedRow src (fun p => decide (p ∈ cur.dynamic_paths.map Prod.fst)) row
          (pv :: rest) spill
          = (spill.takeWhile (fun s => decide (strLt s pv.1))).filterMap (spillEntry src row)
              ++ pv :: mergedRow src (fun p => decide (p ∈ cur.dynamic_paths.map Prod.fst)) row rest
                  (spill.dropWhile (fun s => decide (strLt s pv.1))) := by
        rw [mergedRow, if_neg (by simpa using hmem)]
      rw [hmr]
      simp [SharedData.appendEntry]

theorem processRow_char (src : ColumnObject) (spill : List String) (row : Nat)
    (C : ColumnObject) :
    (processRow C src spill row).shared_data
      = C.shared_data.pushRow (mergedRow src
          (fun p => decide (p ∈ C.dynamic_paths.map Prod.fst)) row
          (src.shared_data.row row) spill) ∧
    (processRow C src spill row).dynamic_paths.map Prod.fst = C.dynamic_paths.map Prod.fst ∧
    (processRow C src spill row).typed_paths = C.typed_paths ∧
    (processRow C src spill row).max_dynamic_paths = C.max_dynamic_paths ∧
    (processRow C src spill row).statistics = C.statistics := by
  obtain ⟨i1, i2, i3, i4, i5⟩ := rowLoop_char src row (src.shared_data.row row) spill C
  refine ⟨?_, ?_, i3, i4, i5⟩
  · show (rowLoop src row C (src.shared_data.row row) spill).shared_data.pushOffset = _
    rw [i1, pushRow_eq]
    unfold SharedData.pushOffset
    simp
  · show (padDynamicOne (rowLoop src row C (src.shared_data.row row) spill).dynamic_paths
        C.shared_data.offsets.length).map Prod.fst = _
    unfold padDynamicOne
    rw [ite_pad_keys]
    exact i2

theorem processRow_fold_char (src : ColumnObject) (spill : List String) (start : Nat) :
    ∀ (len : Nat) (C : ColumnObject),
      ((List.range len).foldl (fun acc k => processRow acc src spill (start + k)) C).shared_data
        = C.shared_data.pushRows ((List.range len).map (fun k =>
            mergedRow src (fun p => decide (p ∈ C.dynamic_paths.map Prod.fst)) (start + k)
              (src.shared_data.row (start + k)) spill)) ∧
      ((List.range len).foldl (fun acc k => processRow acc src spill (start + k)) C).dynamic_paths.map
          Prod.fst = C.dynamic_paths.map Prod.fst := by
  intro len
  induction len with
  | zero =>
    intro C
    exact ⟨rfl, rfl⟩
  | succ n ih =>
    intro C
    rw [List.range_succ, List.foldl_append, List.map_append, List.foldl_cons, List.foldl_nil]
    obtain ⟨h1, h2⟩ := ih C
    obtain ⟨p1, p2, _, _, _⟩ := processRow_char src spill (start + n)
      ((List.range n).foldl (fun acc k => processRow acc src spill (start + k)) C)
    constructor
    · rw [p1, h1, h2]
      unfold SharedData.pushRows
      rw [List.foldl_append]
      simp
    · rw [p2, h2]

theorem spillRows_fold_char (src : ColumnObject) (spill : List String) (start : Nat) :
    ∀ (len : Nat) (C : ColumnObject),
      ((List.range len).foldl (fun acc k =>
          { acc with shared_data := (spill.foldl (fun sd s => sharedAppendOpt sd
              (spillEntry src (start + k) s)) acc.shared_data).pushOffset }) C).shared_data
        = C.shared_data.pushRows ((List.range len).map (fun k =>
            spill.filterMap (spillEntry src (start + k)))) ∧
      ((List.range len).foldl (fun acc k =>
          { acc with shared_data := (spill.foldl (fun sd s => sharedAppendOpt sd
              (spillEntry src (start + k) s)) acc.shared_data).pushOffset }) C).dynamic_paths
        = C.dynamic_paths := by
  intro len
  induction len with
  | zero =>
    intro C
    exact ⟨rfl, rfl⟩
  | succ n ih =>
    intro C
    rw [List.range_succ, List.foldl_append, List.map_append, List.foldl_cons, List.foldl_nil]
    obtain ⟨h1, h2⟩ := ih C
    constructor
    · dsimp only
      rw [foldl_spill_append, h1]
      unfold SharedData.pushRows
      rw [List.foldl_append]
      simp only [List.map_cons, List.map_nil, List.foldl_cons, List.foldl_nil]
      rw [pushRow_eq]
      unfold SharedData.pushOffset
      simp
    · dsimp only
      exact h2

theorem row_insertManyDefaults {sd : SharedData} (h : SDOk sd) (len k : Nat) (hk : k < len) :
    (sd.insertManyDefaults len).row (sd.offsets.length + k) = [] := by
  have hoffs : (sd.insertManyDefaults len).offsets = sd.offsets ++ List.replicate len sd.lastOff :=
    rfl
  have hstart : (sd.insertManyDefaults len).rowStart (sd.offsets.length + k) = sd.lastOff := by
    unfold SharedData.rowStart
    rw [hoffs]
    by_cases h0 : sd.offsets.length + k = 0
    · rw [if_pos h0]
      have hoff : sd.offsets = [] := List.eq_nil_of_length_eq_zero (by omega)
      unfold SharedData.lastOff
      rw [hoff]
      simp
    · rw [if_neg h0]
      by_cases hin : sd.offsets.length + k - 1 < sd.offsets.length
      · simp only [List.getD_eq_getElem?_getD, List.getElem?_append, hin, if_true]
        rw [← List.getD_eq_getElem?_getD]
        have hidx : sd.offsets.length + k - 1 = sd.offsets.length - 1 := by omega
        rw [hidx, getD_last_eq]
        rfl
      · have hidx : sd.offsets.length + k - 1 - sd.offsets.length < len := by omega
        simp only [List.getD_eq_getElem?_getD, List.getElem?_append, hin, if_false,
          List.getElem?_replicate, hidx, if_true]
        rfl
  have hend : (sd.insertManyDefaults len).rowEnd (sd.offsets.length + k) = sd.lastOff := by
    unfold SharedData.rowEnd
    rw [hoffs]
    have hin : ¬ (sd.offsets.length + k < sd.offsets.length) := by omega
    have hidx : sd.offsets.length + k - sd.offsets.length < len := by omega
    simp only [List.getD_eq_getElem?_getD, List.getElem?_append, hin, if_false,
      List.getElem?_replicate, hidx, if_true]
    rfl
  unfold SharedData.row
  rw [hstart, hend, Nat.sub_self, List.take_zero]

theorem getD_map_range {α : Type} (f : Nat → α) (len k : Nat) (hk : k < len) (d : α) :
    ((List.range len).map f).getD k d = f k := by
  rw [List.getD_eq_getElem?_getD, List.getElem?_map, List.getElem?_range hk]
  rfl

theorem strLt_ne {a b : String} (h : strLt a b) : a ≠ b := by
  intro he
  rw [he] at h
  exact strLt_irrefl b h

theorem irf_typed_fold (start len : Nat) :
    ∀ (l : List (String × SubColumn)) (acc : ColumnObject),
      (l.foldl (irfTypedStep start len) acc).shared_data = acc.shared_data ∧
      (l.foldl (irfTypedStep start len) acc).dynamic_paths = acc.dynamic_paths ∧
      (l.foldl (irfTypedStep start len) acc).max_dynamic_paths = acc.max_dynamic_paths := by
  intro l
  induction l with
  | nil => exact fun acc => ⟨rfl, rfl, rfl⟩
  | cons pc rest ih =>
    intro acc
    rw [List.foldl_cons]
    obtain ⟨i1, i2, i3⟩ := ih (irfTypedStep start len acc pc)
    refine ⟨?_, ?_, ?_⟩
    · rw [i1]
      rfl
    · rw [i2]
      rfl
    · rw [i3]
      rfl

theorem irf_dyn_fold (start len : Nat) :
    ∀ (l : List (String × SubColumn)) (acc : ColumnObject × List String),
      (l.foldl (irfDynStep start len) acc).1.shared_data = acc.1.shared_data ∧
      ∃ t, (l.foldl (irfDynStep start len) acc).2 = acc.2 ++ t ∧
        t.Sublist (l.map Prod.fst) := by
  intro l
  induction l with
  | nil => exact fun acc => ⟨rfl, [], by simp, List.nil_sublist _⟩
  | cons pc rest ih =>
    intro acc
    rw [List.foldl_cons]
    by_cases h1 : (acc.1.dynamic_paths.lookup pc.1).isSome
    · have hstep : irfDynStep start len acc pc
          = ({ acc.1 with dynamic_paths := updAssoc acc.1.dynamic_paths pc.1 (fun c => c.insertRangeFromCol pc.2 start len) }, acc.2) := by
        unfold irfDynStep
        rw [if_pos h1]
      rw [hstep]
      obtain ⟨i1, t, i2, i3⟩ := ih ({ acc.1 with dynamic_paths := updAssoc acc.1.dynamic_paths pc.1 (fun c => c.insertRangeFromCol pc.2 start len) }, acc.2)
      exact ⟨by simpa using i1, t, by simpa using i2, by rw [List.map_cons]; exact i3.cons _⟩
    · by_cases h2 : acc.1.dynamic_paths.length = acc.1.max_dynamic_paths
      · have hstep : irfDynStep start len acc pc = (acc.1, acc.2 ++ [pc.1]) := by
          unfold irfDynStep
          rw [if_neg h1, if_pos h2]
        rw [hstep]
        obtain ⟨i1, t, i2, i3⟩ := ih (acc.1, acc.2 ++ [pc.1])
        refine ⟨by simpa using i1, pc.1 :: t, ?_, ?_⟩
        · rw [i2]
          simp
        · rw [List.map_cons]
          exact i3.cons₂ _
      · have hstep : irfDynStep start len acc pc
            = ({ acc.1 with dynamic_paths := acc.1.dynamic_paths ++ [(pc.1, (freshDynamic (fun _ => true) acc.1.size).insertRangeFromCol pc.2 start len)] }, acc.2) := by
          unfold irfDynStep
          rw [if_neg h1, if_neg h2]
        rw [hstep]
        obtain ⟨i1, t, i2, i3⟩ := ih ({ acc.1 with dynamic_paths := acc.1.dynamic_paths ++ [(pc.1, (freshDynamic (fun _ => true) acc.1.size).insertRangeFromCol pc.2 start len)] }, acc.2)
        exact ⟨by simpa using i1, t, by simpa using i2, by rw [List.map_cons]; exact i3.cons _⟩

/-- Claim C4: for well-formed columns whose source satisfies the per-row
sortedness invariant (I3) and the dynamic/shared disjointness invariant
(I4) on the copied range, every shared-data row produced by
insertRangeFrom has strictly sorted (byte-lex), hence unique, keys: the
deferred spill list is sorted and merged into each source row as a single
sorted run. -/
theorem c4_insert_range_from_sorted (C src : ColumnObject) (start len : Nat)
    (hwfC : WF C) (hwfsrc : WF src)
    (hI3 : ∀ r, start ≤ r → r < start + len →
      ((src.shared_data.row r).map Prod.fst).Pairwise strLt)
    (hI4 : ∀ r, start ≤ r → r < start + len →
      ∀ p ∈ src.dynamic_paths.map Prod.fst, p ∉ (src.shared_data.row r).map Prod.fst) :
    ∀ k, k < len →
      (((C.insertRangeFrom src start len).shared_data.row (C.size + k)).map Prod.fst).Pairwise
          strLt ∧
      (((C.insertRangeFrom src start len).shared_data.row (C.size + k)).map Prod.fst).Nodup := by
  intro k hk
  have hsuf : ∀ (l : List String), l.Pairwise strLt → l.Nodup :=
    fun l hp => hp.imp (fun hab => strLt_ne hab)
  suffices hs : (((C.insertRangeFrom src start len).shared_data.row (C.size + k)).map
      Prod.fst).Pairwise strLt by
    exact ⟨hs, hsuf _ hs⟩
  simp only [ColumnObject.insertRangeFrom]
  obtain ⟨t1, t2, t3⟩ := irf_typed_fold start len src.typed_paths C
  obtain ⟨d1, spill0, d2, d3⟩ := irf_dyn_fold start len src.dynamic_paths
    (src.typed_paths.foldl (irfTypedStep start len) C, [])
  rw [d2] at *
  simp only [List.nil_append] at *
  have hspill0_nodup : spill0.Nodup := hwfsrc.dyn_nodup.sublist d3
  have hspill0_mem : ∀ s ∈ spill0, s ∈ src.dynamic_paths.map Prod.fst := fun s hs => d3.mem hs
  simp only [insertFromSharedDataAndFillRemainingDynamicPaths]
  have hsorted_spill : (List.insertionSort strLe spill0).Pairwise strLt := by
    refine pairwise_strLt_of_sorted_nodup (List.sorted_insertionSort ..) ?_
    exact (List.perm_insertionSort strLe spill0).nodup_iff.mpr hspill0_nodup
  have hmem_spill : ∀ s ∈ List.insertionSort strLe spill0, s ∈ src.dynamic_paths.map Prod.fst :=
    fun s hs => hspill0_mem s ((List.perm_insertionSort strLe spill0).mem_iff.mp hs)
  have hsd : (src.typed_paths.foldl (irfTypedStep start len) C).shared_data = C.shared_data := t1
  have hSDOk : SDOk C.shared_data := hwfC.toSDOk
  have hshared : (src.dynamic_paths.foldl (irfDynStep start len)
      (src.typed_paths.foldl (irfTypedStep start len) C, [])).1.shared_data
      = C.shared_data := d1.trans hsd
  by_cases hcond : src.shared_data.rowStart start = src.shared_data.rowStart (start + len)
  · rw [if_pos hcond]
    by_cases hempty : (List.insertionSort strLe spill0).isEmpty
    · rw [if_pos hempty]
      dsimp only
      rw [hshared]
      rw [show C.size + k = C.shared_data.offsets.length + k from rfl]
      rw [row_insertManyDefaults hSDOk len k hk]
      simp
    · rw [if_neg hempty]
      dsimp only
      obtain ⟨f1, _⟩ := spillRows_fold_char src (List.insertionSort strLe spill0) start len
        (src.dynamic_paths.foldl (irfDynStep start len)
          (src.typed_paths.foldl (irfTypedStep start len) C, [])).1
      rw [f1, hshared]
      rw [show C.size + k = C.shared_data.offsets.length + k from rfl]
      rw [row_pushRows hSDOk _ k (by simpa using hk)]
      rw [getD_map_range _ len k hk]
      rw [filterMap_spill_keys]
      exact hsorted_spill.filter _
  · rw [if_neg hcond]
    obtain ⟨f1, _⟩ := processRow_fold_char src (List.insertionSort strLe spill0) start len
      (src.dynamic_paths.foldl (irfDynStep start len)
        (src.typed_paths.foldl (irfTypedStep start len) C, [])).1
    rw [f1, d1, hsd]
    rw [show C.size + k = C.shared_data.offsets.length + k from rfl]
    rw [row_pushRows hSDOk _ k (by simpa using hk)]
    rw [getD_map_range _ len k hk]
    refine mergedRow_sorted src _ (start + k) _ _ ?_ hsorted_spill ?_
    · exact hI3 (start + k) (by omega) (by omega)
    · intro s hs pv hpv he
      have hsm := hmem_spill s hs
      have := hI4 (start + k) (by omega) (by omega) s hsm
      apply this
      rw [he]
      exact List.mem_map_of_mem Prod.fst hpv

theorem c4_insert_range_from_sorted_witness :
    WF exC0 ∧ WF exSrc4 ∧
    (((exC0.insertRangeFrom exSrc4 0 1).shared_data.row (exC0.size + 0)).map
        Prod.fst).Pairwise strLt ∧
    (((exC0.insertRangeFrom exSrc4 0 1).shared_data.row (exC0.size + 0)).map
        Prod.fst).Nodup := by
  have hwfC : WF exC0 :=
    ⟨by decide, by decide, by decide, by decide, by decide, by decide, by decide, by decide⟩
  have hwfs : WF exSrc4 :=
    ⟨by decide, by decide, by decide, by decide, by decide, by decide, by decide, by decide⟩
  have h := c4_insert_range_from_sorted exC0 exSrc4 0 1 hwfC hwfs
    (by intro r _ h2
        have hr : r = 0 := by omega
        subst hr
        decide)
    (by intro r _ h2
        have hr : r = 0 := by omega
        subst hr
        decide)
    0 (by decide)
  exact ⟨hwfC, hwfs, h.1, h.2⟩

/-! ### Assoc-list and sub-column lemmas for the arena codec -/

theorem lookup_append {β : Type} (l m : List (String × β)) (p : String) :
    (l ++ m).lookup p = match l.lookup p with
      | some v => some v
      | none => m.lookup p := by
  induction l with
  | nil => simp [List.lookup]
  | cons q rest ih =>
    rcases q with ⟨q1, q2⟩
    by_cases h : p = q1
    · simp [List.lookup, h]
    · have hb : (p == q1) = false := by simpa using h
      simp [List.lookup, hb, ih]

theorem mem_of_lookup_some {β : Type} {l : List (String × β)} {p : String} {v : β}
    (h : l.lookup p = some v) : (p, v) ∈ l := by
  induction l with
  | nil => simp [List.lookup] at h
  | cons q rest ih =>
    rcases q with ⟨q1, q2⟩
    by_cases hq : p = q1
    · subst hq
      simp [List.lookup] at h
      subst h
      exact List.mem_cons_self _ _
    · have hb : (p == q1) = false := by simpa using hq
      simp only [List.lookup, hb] at h
      exact List.mem_cons_of_mem _ (ih h)

theorem lookup_perm_nodup {β : Type} {l m : List (String × β)} (hperm : l.Perm m)
    (hnd : (l.map Prod.fst).Nodup) (p : String) : l.lookup p = m.lookup p := by
  have hndm : (m.map Prod.fst).Nodup := ((hperm.map Prod.fst).nodup_iff).mp hnd
  cases h : l.lookup p with
  | none =>
    rw [lookup_eq_none_iff] at h
    rw [eq_comm, lookup_eq_none_iff]
    intro hm
    exact h (((hperm.map Prod.fst).mem_iff).mpr hm)
  | some v =>
    have hmem := mem_of_lookup_some h
    exact (lookup_of_mem_nodup hndm (hperm.mem_iff.mp hmem)).symm

theorem reverse_lookup_nodup {β : Type} {l : List (String × β)}
    (hnd : (l.map Prod.fst).Nodup) (p : String) : l.reverse.lookup p = l.lookup p :=
  lookup_perm_nodup (List.reverse_perm l) (by rw [List.map_reverse, List.nodup_reverse]; exact hnd) p

theorem reverse_lookup_none {β : Type} {l : List (String × β)} {p : String}
    (h : p ∉ l.map Prod.fst) : l.reverse.lookup p = none := by
  rw [lookup_eq_none_iff, List.map_reverse, List.mem_reverse]
  exact h

theorem updAssoc_lookup_self (l : List (String × SubColumn)) (p : String)
    (f : SubColumn → SubColumn) : (updAssoc l p f).lookup p = (l.lookup p).map f := by
  induction l with
  | nil => simp [updAssoc, List.lookup]
  | cons q rest ih =>
    rcases q with ⟨q1, q2⟩
    simp only [updAssoc, List.map_cons] at ih ⊢
    by_cases h : q1 = p
    · subst h
      rw [if_pos rfl]
      simp [List.lookup]
    · rw [if_neg h]
      have hb : (p == q1) = false := by simpa using fun he => h he.symm
      simp only [List.lookup, hb]
      exact ih

theorem updAssoc_lookup_other (l : List (String × SubColumn)) (p : String)
    (f : SubColumn → SubColumn) (q : String) (h : q ≠ p) :
    (updAssoc l p f).lookup q = l.lookup q := by
  induction l with
  | nil => simp [updAssoc]
  | cons a rest ih =>
    rcases a with ⟨a1, a2⟩
    simp only [updAssoc, List.map_cons] at ih ⊢
    by_cases ha : a1 = p
    · subst ha
      have hb : (q == a1) = false := by simpa using h
      rw [if_pos rfl]
      simp only [List.lookup, hb]
      exact ih
    · rw [if_neg ha]
      by_cases hq : q = a1
      · simp [List.lookup, hq]
      · have hb : (q == a1) = false := by simpa using hq
        simp only [List.lookup, hb]
        exact ih

theorem exists_key_split {β : Type} (l : List (String × β)) (p : String)
    (hmem : p ∈ l.map Prod.fst) (hnd : (l.map Prod.fst).Nodup) :
    ∃ l1 v l2, l = l1 ++ (p, v) :: l2 ∧ p ∉ l1.map Prod.fst ∧ p ∉ l2.map Prod.fst := by
  induction l with
  | nil => simp at hmem
  | cons q rest ih =>
    simp only [List.map_cons, List.nodup_cons] at hnd
    by_cases h : q.1 = p
    · refine ⟨[], q.2, rest, ?_, by simp, ?_⟩
      · rw [List.nil_append, ← h]
      · rw [← h]
        exact hnd.1
    · have hm : p ∈ rest.map Prod.fst := by
        simp only [List.map_cons, List.mem_cons] at hmem
        rcases hmem with h1 | h1
        · exact absurd h1.symm h
        · exact h1
      obtain ⟨l1, v, l2, he, h1, h2⟩ := ih hm hnd.2
      refine ⟨q :: l1, v, l2, by rw [he]; rfl, ?_, h2⟩
      simp only [List.map_cons, List.mem_cons]
      rintro (hc | hc)
      · exact h hc.symm
      · exact h1 hc

theorem valAt_insertVal (c : SubColumn) (v : Value) :
    (c.insertVal v).valAt c.data.length = v := by
  unfold SubColumn.insertVal SubColumn.valAt
  dsimp only
  rw [List.getD_eq_getElem?_getD, List.getElem?_append]
  rw [if_neg (lt_irrefl _)]
  simp

theorem valAt_out_of_range (c : SubColumn) (n : Nat) (h : c.data.length ≤ n) :
    c.valAt n = c.dflt := by
  unfold SubColumn.valAt
  rw [List.getD_eq_getElem?_getD, List.getElem?_eq_none h]
  rfl

theorem valAt_fresh_insert (dynOk : Value → Bool) (m : Nat) (v : Value) :
    ((freshDynamic dynOk m).insertVal v).valAt m = v := by
  have hlen : (freshDynamic dynOk m).data.length = m := by simp [freshDynamic]
  nth_rewrite 2 [← hlen]
  exact valAt_insertVal _ v

theorem serializeRow_keys (C : ColumnObject) (n : Nat) :
    (C.serializeRow n).map Prod.fst
      = C.typed_paths.map Prod.fst ++ C.dynamic_paths.map Prod.fst
        ++ (C.shared_data.row n).map Prod.fst := by
  have hf : (Prod.fst ∘ fun pc : String × SubColumn => (pc.1, pc.2.valAt n)) = Prod.fst := by
    funext pc
    rfl
  simp only [ColumnObject.serializeRow, List.map_append, List.map_map, hf]

theorem projRead_of_defer {newRow : Nat} {st : ColumnObject × List (String × Value)}
    {p : String} {v : Value} (h : st.2.reverse.lookup p = some v) :
    projRead newRow st p = some v := by
  simp only [projRead, h]

theorem projRead_of_dyn {newRow : Nat} {st : ColumnObject × List (String × Value)}
    {p : String} {c : SubColumn} (h1 : st.2.reverse.lookup p = none)
    (h2 : st.1.dynamic_paths.lookup p = some c) :
    projRead newRow st p = if c.valAt newRow = Value.null
      then (st.1.typed_paths.lookup p).map (fun tc => tc.valAt newRow)
      else some (c.valAt newRow) := by
  simp only [projRead, h1, h2]

theorem projRead_of_none {newRow : Nat} {st : ColumnObject × List (String × Value)}
    {p : String} (h1 : st.2.reverse.lookup p = none)
    (h2 : st.1.dynamic_paths.lookup p = none) :
    projRead newRow st p = (st.1.typed_paths.lookup p).map (fun tc => tc.valAt newRow) := by
  simp only [projRead, h1, h2]

theorem readAt_of_shared {C : ColumnObject} {n : Nat} {p : String} {v : Value}
    (h : (C.shared_data.row n).reverse.lookup p = some v) :
    C.readAt n p = some v := by
  simp only [ColumnObject.readAt, h]

theorem readAt_of_dyn {C : ColumnObject} {n : Nat} {p : String} {c : SubColumn}
    (h1 : (C.shared_data.row n).reverse.lookup p = none)
    (h2 : C.dynamic_paths.lookup p = some c) :
    C.readAt n p = if c.valAt n = Value.null
      then (C.typed_paths.lookup p).map (fun tc => tc.valAt n)
      else some (c.valAt n) := by
  simp only [ColumnObject.readAt, h1, h2]

theorem readAt_of_none {C : ColumnObject} {n : Nat} {p : String}
    (h1 : (C.shared_data.row n).reverse.lookup p = none)
    (h2 : C.dynamic_paths.lookup p = none) :
    C.readAt n p = (C.typed_paths.lookup p).map (fun tc => tc.valAt n) := by
  simp only [ColumnObject.readAt, h1, h2]

theorem lookup_append_of_some {β : Type} {l : List (String × β)} {p : String} {v : β}
    (m : List (String × β)) (h : l.lookup p = some v) : (l ++ m).lookup p = some v := by
  rw [lookup_append, h]

theorem lookup_append_of_none {β : Type} {l : List (String × β)} {p : String}
    (m : List (String × β)) (h : l.lookup p = none) : (l ++ m).lookup p = m.lookup p := by
  rw [lookup_append, h]

/-! ### Frame lemmas for the arena deserialization fold -/

theorem deserStep_shared (dynOk : Value → Bool) (st : ColumnObject × List (String × Value))
    (pv : String × Value) : (deserStep dynOk st pv).1.shared_data = st.1.shared_data := by
  unfold deserStep
  split
  · rfl
  · split
    · rfl
    · split
      · rfl
      · rfl

theorem deser_fold_shared (dynOk : Value → Bool) :
    ∀ (es : List (String × Value)) (st : ColumnObject × List (String × Value)),
      (es.foldl (deserStep dynOk) st).1.shared_data = st.1.shared_data := by
  intro es
  induction es with
  | nil => intro st; rfl
  | cons pv rest ih =>
    intro st
    rw [List.foldl_cons, ih (deserStep dynOk st pv), deserStep_shared]

theorem deserStep_frame (dynOk : Value → Bool) (st : ColumnObject × List (String × Value))
    (pv : String × Value) (p : String) (hne : p ≠ pv.1) :
    (deserStep dynOk st pv).1.typed_paths.lookup p = st.1.typed_paths.lookup p ∧
    (deserStep dynOk st pv).1.dynamic_paths.lookup p = st.1.dynamic_paths.lookup p ∧
    (deserStep dynOk st pv).2.reverse.lookup p = st.2.reverse.lookup p := by
  unfold deserStep
  by_cases h1 : (st.1.typed_paths.lookup pv.1).isSome
  · rw [if_pos h1]
    refine ⟨?_, rfl, rfl⟩
    dsimp only
    exact updAssoc_lookup_other _ _ _ _ hne
  · rw [if_neg h1]
    by_cases h2 : (st.1.dynamic_paths.lookup pv.1).isSome
    · rw [if_pos h2]
      refine ⟨rfl, ?_, rfl⟩
      dsimp only
      exact updAssoc_lookup_other _ _ _ _ hne
    · rw [if_neg h2]
      by_cases h3 : st.1.dynamic_paths.length = st.1.max_dynamic_paths
      · rw [if_pos h3]
        refine ⟨rfl, rfl, ?_⟩
        dsimp only
        rw [List.reverse_append]
        rcases pv with ⟨p1, v1⟩
        have hb : (p == p1) = false := by simpa using hne
        simp [List.lookup, hb]
      · rw [if_neg h3]
        refine ⟨rfl, ?_, rfl⟩
        dsimp only
        cases hc : st.1.dynamic_paths.lookup p with
        | some c => rw [lookup_append_of_some _ hc]
        | none =>
          rw [lookup_append_of_none _ hc]
          rcases pv with ⟨p1, v1⟩
          have hb : (p == p1) = false := by simpa using hne
          simp [List.lookup, hb]

theorem deser_fold_frame (dynOk : Value → Bool) (p : String) :
    ∀ (es : List (String × Value)) (st : ColumnObject × List (String × Value)),
      p ∉ es.map Prod.fst →
      ((es.foldl (deserStep dynOk) st).1.typed_paths.lookup p = st.1.typed_paths.lookup p ∧
       (es.foldl (deserStep dynOk) st).1.dynamic_paths.lookup p = st.1.dynamic_paths.lookup p ∧
       (es.foldl (deserStep dynOk) st).2.reverse.lookup p = st.2.reverse.lookup p) := by
  intro es
  induction es with
  | nil => exact fun st _ => ⟨rfl, rfl, rfl⟩
  | cons pv rest ih =>
    intro st hp
    simp only [List.map_cons, List.mem_cons] at hp
    push_neg at hp
    obtain ⟨hne, hrest⟩ := hp
    rw [List.foldl_cons]
    obtain ⟨i1, i2, i3⟩ := ih (deserStep dynOk st pv) hrest
    obtain ⟨s1, s2, s3⟩ := deserStep_frame dynOk st pv p hne
    exact ⟨i1.trans s1, i2.trans s2, i3.trans s3⟩

theorem deser_fold_defer (dynOk : Value → Bool) :
    ∀ (es : List (String × Value)) (st : ColumnObject × List (String × Value)),
      ∃ t, (es.foldl (deserStep dynOk) st).2 = st.2 ++ t ∧ t.Sublist es := by
  intro es
  induction es with
  | nil => exact fun st => ⟨[], by simp, List.nil_sublist _⟩
  | cons pv rest ih =>
    intro st
    rw [List.foldl_cons]
    obtain ⟨t, h1, h2⟩ := ih (deserStep dynOk st pv)
    have hcase : (deserStep dynOk st pv).2 = st.2 ∨ (deserStep dynOk st pv).2 = st.2 ++ [pv] := by
      unfold deserStep
      split
      · exact Or.inl rfl
      · split
        · exact Or.inl rfl
        · split
          · exact Or.inr rfl
          · exact Or.inl rfl
    rcases hcase with hc | hc
    · rw [hc] at h1
      exact ⟨t, h1, h2.cons _⟩
    · rw [hc] at h1
      rw [List.append_assoc] at h1
      exact ⟨pv :: t, by simpa using h1, h2.cons₂ _⟩

theorem readAt_deserialize (dynOk : Value → Bool) (D : ColumnObject)
    (entries : List (String × Value)) (hok : SDOk D.shared_data)
    (hnd : ((entries.foldl (deserStep dynOk) (D, [])).2.map Prod.fst).Nodup) (p : String) :
    (D.deserializeAndInsertFromArena dynOk entries).readAt D.size p
      = projRead D.size (entries.foldl (deserStep dynOk) (D, [])) p := by
  have hsh : (entries.foldl (deserStep dynOk) (D, [])).1.shared_data = D.shared_data :=
    deser_fold_shared dynOk entries (D, [])
  have hrow : (D.deserializeAndInsertFromArena dynOk entries).shared_data.row D.size
      = List.insertionSort (fun a b => strLe a.1 b.1)
          (entries.foldl (deserStep dynOk) (D, [])).2 := by
    show ((entries.foldl (deserStep dynOk) (D, [])).1.shared_data.pushRow
        (List.insertionSort (fun a b => strLe a.1 b.1)
          (entries.foldl (deserStep dynOk) (D, [])).2)).row D.size = _
    rw [hsh]
    exact row_pushRow hok _
  have hsortnd : ((List.insertionSort (fun a b => strLe a.1 b.1)
      (entries.foldl (deserStep dynOk) (D, [])).2).map Prod.fst).Nodup :=
    ((List.perm_insertionSort _ _).map Prod.fst).nodup_iff.mpr hnd
  have hlk : (List.insertionSort (fun a b => strLe a.1 b.1)
        (entries.foldl (deserStep dynOk) (D, [])).2).reverse.lookup p
      = (entries.foldl (deserStep dynOk) (D, [])).2.reverse.lookup p := by
    rw [reverse_lookup_nodup hsortnd, reverse_lookup_nodup hnd]
    exact lookup_perm_nodup (List.perm_insertionSort _ _) hsortnd p
  cases hd : (entries.foldl (deserStep dynOk) (D, [])).2.reverse.lookup p with
  | some v =>
    have hX : ((D.deserializeAndInsertFromArena dynOk entries).shared_data.row
        D.size).reverse.lookup p = some v := by
      rw [hrow, hlk, hd]
    rw [readAt_of_shared hX, projRead_of_defer hd]
  | none =>
    have hX : ((D.deserializeAndInsertFromArena dynOk entries).shared_data.row
        D.size).reverse.lookup p = none := by
      rw [hrow, hlk, hd]
    cases hdy : (entries.foldl (deserStep dynOk) (D, [])).1.dynamic_paths.lookup p with
    | some c =>
      have hRd : (D.deserializeAndInsertFromArena dynOk entries).dynamic_paths.lookup p
          = some c := hdy
      rw [readAt_of_dyn hX hRd, projRead_of_dyn hd hdy]
      rfl
    | none =>
      have hRd : (D.deserializeAndInsertFromArena dynOk entries).dynamic_paths.lookup p
          = none := hdy
      rw [readAt_of_none hX hRd, projRead_of_none hd hdy]
      rfl

theorem deser_fold_hit (dynOk : Value → Bool) (D : ColumnObject) (p : String) (v : Value)
    (es1 es2 : List (String × Value)) (hn1 : p ∉ es1.map Prod.fst)
    (hn2 : p ∉ es2.map Prod.fst) :
    ((D.typed_paths.lookup p).isSome ∧
      ((es1 ++ (p, v) :: es2).foldl (deserStep dynOk) (D, [])).2.reverse.lookup p = none ∧
      ((es1 ++ (p, v) :: es2).foldl (deserStep dynOk) (D, [])).1.dynamic_paths.lookup p
        = D.dynamic_paths.lookup p ∧
      ((es1 ++ (p, v) :: es2).foldl (deserStep dynOk) (D, [])).1.typed_paths.lookup p
        = (D.typed_paths.lookup p).map (fun c => c.insertVal v)) ∨
    (D.typed_paths.lookup p = none ∧ (∃ c, D.dynamic_paths.lookup p = some c ∧
      ((es1 ++ (p, v) :: es2).foldl (deserStep dynOk) (D, [])).2.reverse.lookup p = none ∧
      ((es1 ++ (p, v) :: es2).foldl (deserStep dynOk) (D, [])).1.dynamic_paths.lookup p
        = some (c.insertVal v) ∧
      ((es1 ++ (p, v) :: es2).foldl (deserStep dynOk) (D, [])).1.typed_paths.lookup p
        = none)) ∨
    (D.typed_paths.lookup p = none ∧ D.dynamic_paths.lookup p = none ∧
      ((es1 ++ (p, v) :: es2).foldl (deserStep dynOk) (D, [])).2.reverse.lookup p = some v ∧
      (p, v) ∈ ((es1 ++ (p, v) :: es2).foldl (deserStep dynOk) (D, [])).2 ∧
      ((es1 ++ (p, v) :: es2).foldl (deserStep dynOk) (D, [])).1.dynamic_paths.lookup p
        = none ∧
      ((es1 ++ (p, v) :: es2).foldl (deserStep dynOk) (D, [])).1.typed_paths.lookup p
        = none) ∨
    (D.typed_paths.lookup p = none ∧ D.dynamic_paths.lookup p = none ∧
      ((es1 ++ (p, v) :: es2).foldl (deserStep dynOk) (D, [])).2.reverse.lookup p = none ∧
      ((es1 ++ (p, v) :: es2).foldl (deserStep dynOk) (D, [])).1.dynamic_paths.lookup p
        = some ((freshDynamic dynOk D.size).insertVal v) ∧
      ((es1 ++ (p, v) :: es2).foldl (deserStep dynOk) (D, [])).1.typed_paths.lookup p
        = none) := by
  rw [List.foldl_append, List.foldl_cons]
  obtain ⟨t1, d1, r1⟩ := deser_fold_frame dynOk p es1 (D, []) hn1
  obtain ⟨t2, d2, r2⟩ := deser_fold_frame dynOk p es2
    (deserStep dynOk (es1.foldl (deserStep dynOk) (D, [])) (p, v)) hn2
  have hsz : (es1.foldl (deserStep dynOk) (D, [])).1.size = D.size := by
    show (es1.foldl (deserStep dynOk) (D, [])).1.shared_data.offsets.length = _
    rw [deser_fold_shared]
    rfl
  by_cases h1 : ((es1.foldl (deserStep dynOk) (D, [])).1.typed_paths.lookup p).isSome
  · left
    have hstep : deserStep dynOk (es1.foldl (deserStep dynOk) (D, [])) (p, v)
        = ({ (es1.foldl (deserStep dynOk) (D, [])).1 with
              typed_paths := updAssoc (es1.foldl (deserStep dynOk) (D, [])).1.typed_paths p
                (fun c => c.insertVal v) },
            (es1.foldl (deserStep dynOk) (D, [])).2) := by
      show (if ((es1.foldl (deserStep dynOk) (D, [])).1.typed_paths.lookup p).isSome then _ else _) = _
      rw [if_pos h1]
    refine ⟨?_, ?_, ?_, ?_⟩
    · have h1e := h1
      rw [t1] at h1e
      exact h1e
    · rw [r2, hstep]
      dsimp only
      rw [r1]
      rfl
    · rw [d2, hstep]
      dsimp only
      exact d1
    · rw [t2, hstep]
      dsimp only
      rw [updAssoc_lookup_self, t1]
  · have htD : D.typed_paths.lookup p = none := by
      have h1e := Option.not_isSome_iff_eq_none.mp h1
      rw [t1] at h1e
      exact h1e
    by_cases h2 : ((es1.foldl (deserStep dynOk) (D, [])).1.dynamic_paths.lookup p).isSome
    · right
      left
      cases hc : D.dynamic_paths.lookup p with
      | none =>
        exfalso
        have hd1 : (es1.foldl (deserStep dynOk) (D, [])).1.dynamic_paths.lookup p = none := by
          rw [d1]
          exact hc
        rw [hd1] at h2
        simp at h2
      | some c =>
        have hstep : deserStep dynOk (es1.foldl (deserStep dynOk) (D, [])) (p, v)
            = ({ (es1.foldl (deserStep dynOk) (D, [])).1 with
                  dynamic_paths := updAssoc (es1.foldl (deserStep dynOk) (D, [])).1.dynamic_paths
                    p (fun c => c.insertVal v) },
                (es1.foldl (deserStep dynOk) (D, [])).2) := by
          show (if ((es1.foldl (deserStep dynOk) (D, [])).1.typed_paths.lookup p).isSome then _ else _) = _
          rw [if_neg h1, if_pos h2]
        refine ⟨htD, c, rfl, ?_, ?_, ?_⟩
        · rw [r2, hstep]
          dsimp only
          rw [r1]
          rfl
        · rw [d2, hstep]
          dsimp only
          rw [updAssoc_lookup_self, d1]
          have hcc : (D, ([] : List (String × Value))).1.dynamic_paths.lookup p = some c := hc
          rw [hcc]
          rfl
        · rw [t2, hstep]
          dsimp only
          rw [t1]
          exact htD
    · have hdD : D.dynamic_paths.lookup p = none := by
        have h2e := Option.not_isSome_iff_eq_none.mp h2
        rw [d1] at h2e
        exact h2e
      by_cases h3 : (es1.foldl (deserStep dynOk) (D, [])).1.dynamic_paths.length
          = (es1.foldl (deserStep dynOk) (D, [])).1.max_dynamic_paths
      · right
        right
        left
        have hstep : deserStep dynOk (es1.foldl (deserStep dynOk) (D, [])) (p, v)
            = ((es1.foldl (deserStep dynOk) (D, [])).1,
               (es1.foldl (deserStep dynOk) (D, [])).2 ++ [(p, v)]) := by
          show (if ((es1.foldl (deserStep dynOk) (D, [])).1.typed_paths.lookup p).isSome then _ else _) = _
          rw [if_neg h1, if_neg h2, if_pos h3]
        refine ⟨htD, hdD, ?_, ?_, ?_, ?_⟩
        · rw [r2, hstep]
          dsimp only
          rw [List.reverse_append]
          simp [List.lookup]
        · obtain ⟨t, ht, _⟩ := deser_fold_defer dynOk es2
            (deserStep dynOk (es1.foldl (deserStep dynOk) (D, [])) (p, v))
          rw [ht, hstep]
          dsimp only
          exact List.mem_append_left _ (List.mem_append_right _ (List.mem_cons_self _ _))
        · rw [d2, hstep]
          dsimp only
          rw [d1]
          exact hdD
        · rw [t2, hstep]
          dsimp only
          rw [t1]
          exact htD
      · right
        right
        right
        have hstep : deserStep dynOk (es1.foldl (deserStep dynOk) (D, [])) (p, v)
            = ({ (es1.foldl (deserStep dynOk) (D, [])).1 with
                  dynamic_paths := (es1.foldl (deserStep dynOk) (D, [])).1.dynamic_paths
                    ++ [(p, (freshDynamic dynOk
                          (es1.foldl (deserStep dynOk) (D, [])).1.size).insertVal v)] },
                (es1.foldl (deserStep dynOk) (D, [])).2) := by
          show (if ((es1.foldl (deserStep dynOk) (D, [])).1.typed_paths.lookup p).isSome then _ else _) = _
          rw [if_neg h1, if_neg h2, if_neg h3]
        refine ⟨htD, hdD, ?_, ?_, ?_⟩
        · rw [r2, hstep]
          dsimp only
          rw [r1]
          rfl
        · rw [d2, hstep]
          dsimp only
          have hd1 : (es1.foldl (deserStep dynOk) (D, [])).1.dynamic_paths.lookup p = none := by
            rw [d1]
            exact hdD
          rw [lookup_append_of_none _ hd1, hsz]
          simp [List.lookup]
        · rw [t2, hstep]
          dsimp only
          rw [t1]
          exact htD

/-- Claim C8 counterexample: the serialized row of a valid column whose
dynamic path a holds Null at row 0 (legal: shared data stores no null),
deserialized into a destination whose dynamic-path cap is already filled
by b, defers the pair (a, Null) and stores the Null verbatim in the new
shared-data row: deserializeAndInsertFromArena performs no null check on
the deferred entries, unlike serializePathAndValueIntoSharedData. -/
theorem c8_deserialize_null_in_shared_cex :
    WF exC5src ∧ WF exC5dst ∧
    (∀ v ∈ exC5src.shared_data.values, v ≠ Value.null) ∧
    Value.null ∈ ((exC5dst.deserializeAndInsertFromArena okAll
        (exC5src.serializeRow 0)).shared_data.row exC5dst.size).map Prod.snd := by
  refine ⟨⟨by decide, by decide, by decide, by decide, by decide, by decide, by decide,
      by decide⟩,
    ⟨by decide, by decide, by decide, by decide, by decide, by decide, by decide, by decide⟩,
    by decide, by decide⟩

/-- Claim C8 (amended): the new shared-data row appended by
deserializeAndInsertFromArena consists exactly of the deferred entries,
inserted verbatim with no null check; the no-null invariant therefore
holds on the new row precisely when no deferred entry carries a null
value, and it can be violated by a deferred null (see the counterexample). -/
theorem c8_deserialize_no_null_in_new_shared_row (dynOk : Value → Bool) (D : ColumnObject)
    (entries : List (String × Value)) (hwf : WF D)
    (hnull : ∀ pv ∈ deferredOf dynOk D entries, pv.2 ≠ Value.null) :
    ∀ v ∈ ((D.deserializeAndInsertFromArena dynOk entries).shared_data.row D.size).map
        Prod.snd, v ≠ Value.null := by
  intro v hv
  have hrow : (D.deserializeAndInsertFromArena dynOk entries).shared_data.row D.size
      = List.insertionSort (fun a b => strLe a.1 b.1)
          (entries.foldl (deserStep dynOk) (D, [])).2 := by
    show ((entries.foldl (deserStep dynOk) (D, [])).1.shared_data.pushRow
        (List.insertionSort (fun a b => strLe a.1 b.1)
          (entries.foldl (deserStep dynOk) (D, [])).2)).row D.size = _
    rw [deser_fold_shared]
    exact row_pushRow hwf.toSDOk _
  rw [hrow] at hv
  obtain ⟨pv, hpv, hpveq⟩ := List.mem_map.mp hv
  have hmem : pv ∈ (entries.foldl (deserStep dynOk) (D, [])).2 :=
    (List.perm_insertionSort _ _).mem_iff.mp hpv
  rw [← hpveq]
  exact hnull pv hmem

theorem c8_deserialize_no_null_in_new_shared_row_witness :
    WF exC5dst ∧
    (∀ pv ∈ deferredOf okAll exC5dst [("c", Value.int 3)], pv.2 ≠ Value.null) ∧
    ∀ v ∈ ((exC5dst.deserializeAndInsertFromArena okAll
        [("c", Value.int 3)]).shared_data.row exC5dst.size).map Prod.snd,
      v ≠ Value.null := by
  have hwf : WF exC5dst :=
    ⟨by decide, by decide, by decide, by decide, by decide, by decide, by decide, by decide⟩
  refine ⟨hwf, by decide, ?_⟩
  exact c8_deserialize_no_null_in_new_shared_row okAll exC5dst [("c", Value.int 3)] hwf
    (by decide)

/-- Claim C5 counterexample: with equal typed-path sets and equal caps, the
arena round trip of a valid one-row column whose dynamic path a is Null
does not reproduce the readable content: the destination cap is filled by
b, so (a, Null) is deferred and stored in shared data, where it reads back
as Null instead of being invisible. -/
theorem c5_arena_round_trip_cex :
    WF exC5src ∧ WF exC5dst ∧ 0 < exC5src.size ∧
    exC5src.typed_paths.map Prod.fst = exC5dst.typed_paths.map Prod.fst ∧
    exC5src.max_dynamic_paths = exC5dst.max_dynamic_paths ∧
    exC5src.max_dynamic_types = exC5dst.max_dynamic_types ∧
    ¬ ((exC5dst.deserializeAndInsertFromArena okAll (exC5src.serializeRow 0)).readAt
        exC5dst.size "a" = exC5src.readAt 0 "a") := by
  refine ⟨⟨by decide, by decide, by decide, by decide, by decide, by decide, by decide,
      by decide⟩,
    ⟨by decide, by decide, by decide, by decide, by decide, by decide, by decide, by decide⟩,
    by decide, by decide, by decide, by decide, by decide⟩

/-- Claim C5 (amended): the arena round trip reproduces the readable
content of row n pointwise (typed values, non-null dynamic values,
shared-data entries) for every destination with the same typed-path set,
provided no entry deferred to the destination shared data carries a Null
value; without that proviso a Null dynamic value pushed past the
destination cap becomes a readable shared-data Null (see the
counterexample). -/
theorem c5_arena_round_trip (dynOk : Value → Bool) (C D : ColumnObject) (n : Nat)
    (hn : n < C.size) (hwfC : WF C) (hwfD : WF D)
    (htyped : C.typed_paths.map Prod.fst = D.typed_paths.map Prod.fst)
    (hDtd : ∀ q ∈ D.typed_paths.map Prod.fst, q ∉ D.dynamic_paths.map Prod.fst)
    (hCtd : ∀ q ∈ C.typed_paths.map Prod.fst, q ∉ C.dynamic_paths.map Prod.fst)
    (hCts : ∀ q ∈ C.typed_paths.map Prod.fst, q ∉ (C.shared_data.row n).map Prod.fst)
    (hCds : ∀ q ∈ C.dynamic_paths.map Prod.fst, q ∉ (C.shared_data.row n).map Prod.fst)
    (hrownd : ((C.shared_data.row n).map Prod.fst).Nodup)
    (hI5row : ∀ pv ∈ C.shared_data.row n, pv.2 ≠ Value.null)
    (hnodef : ∀ pv ∈ deferredOf dynOk D (C.serializeRow n), pv.2 ≠ Value.null) :
    ∀ p, (D.deserializeAndInsertFromArena dynOk (C.serializeRow n)).readAt D.size p
      = C.readAt n p := by
  intro p
  have hesnd : ((C.serializeRow n).map Prod.fst).Nodup := by
    rw [serializeRow_keys, List.nodup_append]
    refine ⟨?_, hrownd, ?_⟩
    · rw [List.nodup_append]
      exact ⟨hwfC.typed_nodup, hwfC.dyn_nodup, fun a ha hb => hCtd a ha hb⟩
    · intro a ha hb
      rcases List.mem_append.mp ha with h | h
      · exact hCts a h hb
      · exact hCds a h hb
  have hdefnd : (((C.serializeRow n).foldl (deserStep dynOk) (D, [])).2.map Prod.fst).Nodup := by
    obtain ⟨t, ht, hsub⟩ := deser_fold_defer dynOk (C.serializeRow n) (D, [])
    have hsimp : ((D, ([] : List (String × Value))).2 ++ t) = t := rfl
    rw [ht, hsimp]
    exact hesnd.sublist (hsub.map Prod.fst)
  rw [readAt_deserialize dynOk D (C.serializeRow n) hwfD.toSDOk hdefnd p]
  by_cases hpt : p ∈ C.typed_paths.map Prod.fst
  · obtain ⟨pc, hpc, hpck⟩ := List.mem_map.mp hpt
    have hesmem : p ∈ (C.serializeRow n).map Prod.fst := by
      rw [serializeRow_keys]
      exact List.mem_append_left _ (List.mem_append_left _ hpt)
    obtain ⟨es1, v, es2, hsplit, hn1, hn2⟩ := exists_key_split (C.serializeRow n) p hesmem hesnd
    have hvmem : (p, v) ∈ C.serializeRow n := by
      rw [hsplit]
      exact List.mem_append_right _ (List.mem_cons_self _ _)
    have htmem : (p, pc.2.valAt n) ∈ C.serializeRow n := by
      unfold ColumnObject.serializeRow
      refine List.mem_append_left _ (List.mem_append_left _ ?_)
      have hm := List.mem_map_of_mem (fun pc2 : String × SubColumn => (pc2.1, pc2.2.valAt n)) hpc
      dsimp only at hm
      rwa [hpck] at hm
    have hveq : v = pc.2.valAt n :=
      congrArg Prod.snd (mem_eq_of_nodup_keys hesnd hvmem htmem rfl)
    have hDt : (D.typed_paths.lookup p).isSome := by
      rw [lookup_isSome_iff, ← htyped]
      exact hpt
    cases hDtc : D.typed_paths.lookup p with
    | none =>
      rw [hDtc] at hDt
      simp at hDt
    | some ct =>
      have hctlen : ct.data.length = D.size := hwfD.typed_len (p, ct) (mem_of_lookup_some hDtc)
      rw [hsplit]
      rcases deser_fold_hit dynOk D p v es1 es2 hn1 hn2 with
        ⟨_, hr, hd, ht⟩ | ⟨hTn, _⟩ | ⟨hTn, _, _, _, _, _⟩ | ⟨hTn, _, _, _, _⟩
      · have hDdynN : D.dynamic_paths.lookup p = none := by
          rw [lookup_eq_none_iff]
          exact hDtd p (htyped ▸ hpt)
        rw [projRead_of_none hr (hd.trans hDdynN), ht, hDtc]
        have hCshN : (C.shared_data.row n).reverse.lookup p = none :=
          reverse_lookup_none (hCts p hpt)
        have hCdN : C.dynamic_paths.lookup p = none := by
          rw [lookup_eq_none_iff]
          exact hCtd p hpt
        rw [readAt_of_none hCshN hCdN]
        have hClk : C.typed_paths.lookup p = some pc.2 := by
          have hm : (p, pc.2) ∈ C.typed_paths := by
            rw [← hpck]
            exact hpc
          exact lookup_of_mem_nodup hwfC.typed_nodup hm
        rw [hClk]
        show some ((ct.insertVal v).valAt D.size) = some (pc.2.valAt n)
        have hval : (ct.insertVal v).valAt D.size = v := by
          rw [← hctlen]
          exact valAt_insertVal ct v
        rw [hval, hveq]
      · rw [hDtc] at hTn
        simp at hTn
      · rw [hDtc] at hTn
        simp at hTn
      · rw [hDtc] at hTn
        simp at hTn
  · by_cases hpd : p ∈ C.dynamic_paths.map Prod.fst
    · obtain ⟨pc, hpc, hpck⟩ := List.mem_map.mp hpd
      have hesmem : p ∈ (C.serializeRow n).map Prod.fst := by
        rw [serializeRow_keys]
        exact List.mem_append_left _ (List.mem_append_right _ hpd)
      obtain ⟨es1, v, es2, hsplit, hn1, hn2⟩ := exists_key_split (C.serializeRow n) p hesmem hesnd
      rw [hsplit] at hnodef
      have hvmem : (p, v) ∈ C.serializeRow n := by
        rw [hsplit]
        exact List.mem_append_right _ (List.mem_cons_self _ _)
      have hdmem : (p, pc.2.valAt n) ∈ C.serializeRow n := by
        unfold ColumnObject.serializeRow
        refine List.mem_append_left _ (List.mem_append_right _ ?_)
        have hm := List.mem_map_of_mem (fun pc2 : String × SubColumn => (pc2.1, pc2.2.valAt n)) hpc
        dsimp only at hm
        rwa [hpck] at hm
      have hveq : v = pc.2.valAt n :=
        congrArg Prod.snd (mem_eq_of_nodup_keys hesnd hvmem hdmem rfl)
      have hClk : C.dynamic_paths.lookup p = some pc.2 := by
        have hm : (p, pc.2) ∈ C.dynamic_paths := by
          rw [← hpck]
          exact hpc
        exact lookup_of_mem_nodup hwfC.dyn_nodup hm
      have hCtN : C.typed_paths.lookup p = none := by
        rw [lookup_eq_none_iff]
        exact hpt
      have hCshN : (C.shared_data.row n).reverse.lookup p = none :=
        reverse_lookup_none (hCds p hpd)
      have hRHS : C.readAt n p
          = if pc.2.valAt n = Value.null then none else some (pc.2.valAt n) := by
        rw [readAt_of_dyn hCshN hClk, hCtN]
        rfl
      have hDtN : D.typed_paths.lookup p = none := by
        rw [lookup_eq_none_iff, ← htyped]
        exact hpt
      rw [hsplit]
      rcases deser_fold_hit dynOk D p v es1 es2 hn1 hn2 with
        ⟨hT, _⟩ | ⟨_, c, hc, hr, hd, ht⟩ | ⟨_, _, hr, hmemdef, _, _⟩ | ⟨_, _, hr, hd, ht⟩
      · rw [hDtN] at hT
        simp at hT
      · have hclen : c.data.length = D.size := hwfD.dyn_len (p, c) (mem_of_lookup_some hc)
        rw [projRead_of_dyn hr hd, ht]
        have hval : (c.insertVal v).valAt D.size = v := by
          rw [← hclen]
          exact valAt_insertVal c v
        rw [hval, hRHS, ← hveq]
        rfl
      · have hvn : v ≠ Value.null := hnodef (p, v) hmemdef
        rw [projRead_of_defer hr, hRHS, ← hveq, if_neg hvn]
      · rw [projRead_of_dyn hr hd, ht]
        have hval : ((freshDynamic dynOk D.size).insertVal v).valAt D.size = v :=
          valAt_fresh_insert dynOk D.size v
        rw [hval, hRHS, ← hveq]
        rfl
    · by_cases hps : p ∈ (C.shared_data.row n).map Prod.fst
      · obtain ⟨pv0, hpv0, hpv0k⟩ := List.mem_map.mp hps
        have hesmem : p ∈ (C.serializeRow n).map Prod.fst := by
          rw [serializeRow_keys]
          exact List.mem_append_right _ hps
        obtain ⟨es1, v, es2, hsplit, hn1, hn2⟩ := exists_key_split (C.serializeRow n) p
          hesmem hesnd
        have hvmem : (p, v) ∈ C.serializeRow n := by
          rw [hsplit]
          exact List.mem_append_right _ (List.mem_cons_self _ _)
        have hsmem : (p, pv0.2) ∈ C.serializeRow n := by
          unfold ColumnObject.serializeRow
          refine List.mem_append_right _ ?_
          rw [← hpv0k]
          exact hpv0
        have hveq : v = pv0.2 :=
          congrArg Prod.snd (mem_eq_of_nodup_keys hesnd hvmem hsmem rfl)
        have hvn : v ≠ Value.null := by
          rw [hveq]
          exact hI5row pv0 hpv0
        have hCrow : (C.shared_data.row n).reverse.lookup p = some pv0.2 := by
          rw [reverse_lookup_nodup hrownd]
          have hm : (p, pv0.2) ∈ C.shared_data.row n := by
            rw [← hpv0k]
            exact hpv0
          exact lookup_of_mem_nodup hrownd hm
        have hRHS : C.readAt n p = some pv0.2 := readAt_of_shared hCrow
        have hDtN : D.typed_paths.lookup p = none := by
          rw [lookup_eq_none_iff, ← htyped]
          exact fun hmem => hCts p hmem hps
        rw [hsplit]
        rcases deser_fold_hit dynOk D p v es1 es2 hn1 hn2 with
          ⟨hT, _⟩ | ⟨_, c, hc, hr, hd, ht⟩ | ⟨_, _, hr, _, _, _⟩ | ⟨_, _, hr, hd, ht⟩
        · rw [hDtN] at hT
          simp at hT
        · have hclen : c.data.length = D.size := hwfD.dyn_len (p, c) (mem_of_lookup_some hc)
          rw [projRead_of_dyn hr hd]
          have hval : (c.insertVal v).valAt D.size = v := by
            rw [← hclen]
            exact valAt_insertVal c v
          rw [hval, if_neg hvn, hRHS, ← hveq]
        · rw [projRead_of_defer hr, hRHS, ← hveq]
        · rw [projRead_of_dyn hr hd]
          have hval : ((freshDynamic dynOk D.size).insertVal v).valAt D.size = v :=
            valAt_fresh_insert dynOk D.size v
          rw [hval, if_neg hvn, hRHS, ← hveq]
      · have hesN : p ∉ (C.serializeRow n).map Prod.fst := by
          rw [serializeRow_keys]
          intro hmem
          rcases List.mem_append.mp hmem with h | h
          · rcases List.mem_append.mp h with h1 | h1
            · exact hpt h1
            · exact hpd h1
          · exact hps h
        obtain ⟨ft, fd, fr⟩ := deser_fold_frame dynOk p (C.serializeRow n) (D, []) hesN
        have hrN : (((C.serializeRow n).foldl (deserStep dynOk) (D, [])).2).reverse.lookup p
            = none := by
          rw [fr]
          rfl
        have hCtN : C.typed_paths.lookup p = none := by
          rw [lookup_eq_none_iff]
          exact hpt
        have hCdN : C.dynamic_paths.lookup p = none := by
          rw [lookup_eq_none_iff]
          exact hpd
        have hCshN : (C.shared_data.row n).reverse.lookup p = none := reverse_lookup_none hps
        have hDtN : D.typed_paths.lookup p = none := by
          rw [lookup_eq_none_iff, ← htyped]
          exact hpt
        have hRHS : C.readAt n p = none := by
          rw [readAt_of_none hCshN hCdN, hCtN]
          rfl
        cases hDd : D.dynamic_paths.lookup p with
        | some c =>
          have hdS : (((C.serializeRow n).foldl (deserStep dynOk)
              (D, [])).1).dynamic_paths.lookup p = some c := by
            rw [fd]
            exact hDd
          rw [projRead_of_dyn hrN hdS]
          have hclen : c.data.length = D.size := hwfD.dyn_len (p, c) (mem_of_lookup_some hDd)
          have hnull : c.valAt D.size = Value.null := by
            rw [valAt_out_of_range c D.size (le_of_eq hclen)]
            exact hwfD.dyn_dflt (p, c) (mem_of_lookup_some hDd)
          rw [if_pos hnull]
          have htS : (((C.serializeRow n).foldl (deserStep dynOk)
              (D, [])).1).typed_paths.lookup p = none := by
            rw [ft]
            exact hDtN
          rw [htS, hRHS]
          rfl
        | none =>
          have hdS : (((C.serializeRow n).foldl (deserStep dynOk)
              (D, [])).1).dynamic_paths.lookup p = none := by
            rw [fd]
            exact hDd
          rw [projRead_of_none hrN hdS]
          have htS : (((C.serializeRow n).foldl (deserStep dynOk)
              (D, [])).1).typed_paths.lookup p = none := by
            rw [ft]
            exact hDtN
          rw [htS, hRHS]
          rfl

theorem c5_arena_round_trip_witness :
    WF exC1 ∧ WF exC0 ∧ 1 < exC1.size ∧
    (∀ pv ∈ deferredOf okAll exC0 (exC1.serializeRow 1), pv.2 ≠ Value.null) ∧
    (exC0.deserializeAndInsertFromArena okAll (exC1.serializeRow 1)).readAt exC0.size "c"
      = exC1.readAt 1 "c" := by
  have hwfC : WF exC1 :=
    ⟨by decide, by decide, by decide, by decide, by decide, by decide, by decide, by decide⟩
  have hwfD : WF exC0 :=
    ⟨by decide, by decide, by decide, by decide, by decide, by decide, by decide, by decide⟩
  refine ⟨hwfC, hwfD, by decide, by decide, ?_⟩
  exact c5_arena_round_trip okAll exC1 exC0 1 (by decide) hwfC hwfD (by decide) (by decide)
    (by decide) (by decide) (by decide) (by decide) (by decide) (by decide) "c"

/-! ### Claim C9 -/

/-- Claim C9: for every ColumnObject state and every input, getDataAt and
insertData fail fast with the NOT_IMPLEMENTED error; they never succeed,
and insertData surfaces no mutated column (the throw precedes any state
change). -/
theorem c9_single_value_accessors_unsupported (C : ColumnObject) (n : Nat) (s : String) :
    C.getDataAt n = Except.error ObjError.notImplemented ∧
      C.insertData s = Except.error ObjError.notImplemented ∧
      (∀ C2 : ColumnObject, C.insertData s ≠ Except.ok C2) := by
  refine ⟨rfl, rfl, fun C2 h => ?_⟩
  simp [ColumnObject.insertData] at h

/-! ### Claim C10 -/

/-- Claim C10: getPermutation writes the identity permutation of length
size(C) into the result, for every direction, stability, limit and
nan_direction_hint, independent of the column's contents. -/
theorem c10_get_permutation_identity (C : ColumnObject) (dir : SortDirection)
    (stab : SortStability) (limit : Nat) (hint : Int) :
    (C.getPermutation dir stab limit hint).length = C.size ∧
      ∀ i, i < C.size → (C.getPermutation dir stab limit hint).getD i 0 = i := by
  constructor
  · simp [ColumnObject.getPermutation]
  · intro i hi
    simp [ColumnObject.getPermutation, List.getD_eq_getElem?_getD, List.getElem?_range hi]

/-- Witness for C10 at a concrete two-row column and index 1. -/
theorem c10_get_permutation_identity_witness :
    (1 < exC1.size) ∧
      (exC1.getPermutation SortDirection.descending SortStability.stable 0 (-1)).getD 1 0 = 1 :=
  ⟨by decide,
    (c10_get_permutation_identity exC1 SortDirection.descending SortStability.stable 0 (-1)).2
      1 (by decide)⟩

/-! ### Claim C7 -/

/-- Claim C7 counterexample: filter does not preserve the statistics; the
create overload used by the bulk operations takes no statistics argument
and its defaulted parameter resets them to a default-constructed value. -/
theorem c7_statistics_not_preserved_cex :
    (exCStat.filter [true]).statistics ≠ exCStat.statistics := by
  decide

/-- Claim C7 (amended): filter, permute, index and replicate preserve
max_dynamic_paths and max_dynamic_types, but reset statistics to a
default-constructed value (source READ, empty data) instead of carrying
over the source statistics. -/
theorem c7_bulk_ops_preserve_caps_reset_statistics (C : ColumnObject) (mask : List Bool)
    (perm idxs offs : List Nat) (limit : Nat) :
    ((C.filter mask).max_dynamic_paths = C.max_dynamic_paths ∧
        (C.filter mask).max_dynamic_types = C.max_dynamic_types ∧
        (C.filter mask).statistics = Statistics.default) ∧
      ((C.permute perm limit).max_dynamic_paths = C.max_dynamic_paths ∧
        (C.permute perm limit).max_dynamic_types = C.max_dynamic_types ∧
        (C.permute perm limit).statistics = Statistics.default) ∧
      ((C.index idxs limit).max_dynamic_paths = C.max_dynamic_paths ∧
        (C.index idxs limit).max_dynamic_types = C.max_dynamic_types ∧
        (C.index idxs limit).statistics = Statistics.default) ∧
      ((C.replicate offs).max_dynamic_paths = C.max_dynamic_paths ∧
        (C.replicate offs).max_dynamic_types = C.max_dynamic_types ∧
        (C.replicate offs).statistics = Statistics.default) :=
  ⟨⟨rfl, rfl, rfl⟩, ⟨rfl, rfl, rfl⟩, ⟨rfl, rfl, rfl⟩, ⟨rfl, rfl, rfl⟩⟩

end DB
